import Mathlib

/-!
# Verification of the kernelle self-update orchestrator

This development embeds `crates/kernelle/src/commands/update.rs` — the
self-update flow (release resolution, staging, snapshotting, install,
verification and rollback) — as pure Lean functions over an explicit
filesystem tree, and proves or refutes the specified properties of that
flow.

The filesystem is a rooted tree of directories (ordered association
lists of named children, mirroring `read_dir` iteration order) and files
(byte lists).  Every `std::fs` primitive used by the source is modelled
as an `Option`-valued operation that fails exactly where the real call
fails (missing parents, a file blocking a directory path, paths
exceeding the system path-length limit `maxp`, removing something that
is not there).  External collaborators — the GitHub release service, the
`tar` subprocess, `install.sh` and the `kernelle --version` smoke test —
are oracle fields supplied by the environment, as the specification
treats them.  `copy_dir_recursive` is embedded exactly as written:
destination created first, entry list captured by `read_dir`, children
re-read live — which matters, because `create_snapshot` copies the state
directory into a subdirectory of itself.  Fuel bounds the recursion; for
every finite fuel the function returns a failure whenever the real
recursion would keep descending until the OS aborts it with an I/O
error, so `none`/`false` results coincide with real runs never
returning `Ok`.
-/

namespace Kernelle

/-- A filesystem path, as a list of components below the root. -/
abbrev Path := List String

/-- A filesystem node: a file with contents, or a directory whose
entries are an ordered association list (the order models `read_dir`
iteration order). -/
inductive Node where
  | file : List Nat → Node
  | dir : List (String × Node) → Node
deriving Repr

mutual

/-- Decidable equality of filesystem nodes. -/
def Node.decEq : (a b : Node) → Decidable (a = b)
  | Node.file a, Node.file b =>
      match inferInstanceAs (Decidable (a = b)) with
      | Decidable.isTrue h => Decidable.isTrue (congrArg Node.file h)
      | Decidable.isFalse h => Decidable.isFalse (fun hh => h (Node.file.inj hh))
  | Node.file _, Node.dir _ => Decidable.isFalse (fun hh => Node.noConfusion hh)
  | Node.dir _, Node.file _ => Decidable.isFalse (fun hh => Node.noConfusion hh)
  | Node.dir es, Node.dir fs =>
      match Node.decEqList es fs with
      | Decidable.isTrue h => Decidable.isTrue (congrArg Node.dir h)
      | Decidable.isFalse h => Decidable.isFalse (fun hh => h (Node.dir.inj hh))

/-- Decidable equality of directory entry lists. -/
def Node.decEqList : (a b : List (String × Node)) → Decidable (a = b)
  | [], [] => Decidable.isTrue rfl
  | [], _ :: _ => Decidable.isFalse (fun hh => List.noConfusion hh)
  | _ :: _, [] => Decidable.isFalse (fun hh => List.noConfusion hh)
  | (k, v) :: es, (k2, v2) :: fs =>
      match inferInstanceAs (Decidable (k = k2)), Node.decEq v v2, Node.decEqList es fs with
      | Decidable.isTrue h1, Decidable.isTrue h2, Decidable.isTrue h3 =>
          Decidable.isTrue (by rw [h1, h2, h3])
      | Decidable.isFalse h1, _, _ =>
          Decidable.isFalse (fun hh => by cases hh; exact h1 rfl)
      | _, Decidable.isFalse h2, _ =>
          Decidable.isFalse (fun hh => by cases hh; exact h2 rfl)
      | _, _, Decidable.isFalse h3 =>
          Decidable.isFalse (fun hh => by cases hh; exact h3 rfl)

end

instance : DecidableEq Node := Node.decEq

/-- Association-list lookup of a directory entry (first match). -/
def findEntry : List (String × Node) → String → Option Node
  | [], _ => none
  | (k, v) :: rest, key => if k = key then some v else findEntry rest key

/-- Replace the first entry named `key`, or append a new one. -/
def setEntry : List (String × Node) → String → Node → List (String × Node)
  | [], key, v => [(key, v)]
  | (k, w) :: rest, key, v =>
      if k = key then (k, v) :: rest else (k, w) :: setEntry rest key v

/-- Remove every entry named `key`. -/
def eraseEntry : List (String × Node) → String → List (String × Node)
  | [], _ => []
  | (k, w) :: rest, key =>
      if k = key then eraseEntry rest key else (k, w) :: eraseEntry rest key

/-- Resolve a path from a node. -/
def lookupNode : Node → Path → Option Node
  | n, [] => some n
  | Node.dir es, k :: p =>
      match findEntry es k with
      | some c => lookupNode c p
      | none => none
  | Node.file _, _ :: _ => none

/-- `Path::exists`. -/
def existsAt (fs : Node) (p : Path) : Bool := (lookupNode fs p).isSome

/-- `Path::is_dir`. -/
def isDirAt (fs : Node) (p : Path) : Bool :=
  match lookupNode fs p with
  | some (Node.dir _) => true
  | _ => false

/-- Byte length of a path as presented to the OS (one separator per
component). -/
def pathBytes : Path → Nat
  | [] => 0
  | k :: p => k.length + 1 + pathBytes p

/-- Spec-level total write: create intermediate directories as needed
and place `v` at `p`, replacing whatever was there.  Used to state the
results of the modelled operations, not by the embedded code itself. -/
def writeAt (fs : Node) : Path → Node → Node
  | [], v => v
  | k :: p, v =>
      let es := match fs with
        | Node.dir es => es
        | Node.file _ => []
      Node.dir (setEntry es k (writeAt ((findEntry es k).getD (Node.dir [])) p v))

/-- The directory chain freshly built by `writeAt` below a missing
path. -/
def chainNode : Path → Node → Node
  | [], v => v
  | k :: p, v => Node.dir [(k, chainNode p v)]

/-- Every component of `p` that already exists along the chain is a
directory (so `create_dir_all` can proceed); the root case also demands
the node itself be a directory. -/
def chainFree : Node → Path → Bool
  | Node.dir _, [] => true
  | Node.file _, [] => false
  | Node.dir es, k :: p =>
      match findEntry es k with
      | some c => chainFree c p
      | none => true
  | Node.file _, _ :: _ => false

/-- `fs::create_dir_all`, without the path-length check. -/
def createDirAllGo : Node → Path → Option Node
  | Node.dir es, [] => some (Node.dir es)
  | Node.file _, [] => none
  | Node.dir es, k :: p =>
      (createDirAllGo ((findEntry es k).getD (Node.dir [])) p).map
        (fun c2 => Node.dir (setEntry es k c2))
  | Node.file _, _ :: _ => none

/-- `fs::create_dir_all`: fails if a file blocks the chain or the path
exceeds the OS limit. -/
def createDirAll (maxp : Nat) (fs : Node) (p : Path) : Option Node :=
  if pathBytes p ≤ maxp then createDirAllGo fs p else none

/-- Write a file at a path whose parent chain must already exist as
directories; the slot itself must not be an existing directory. -/
def writeFileAt : Node → Path → List Nat → Option Node
  | _, [], _ => none
  | Node.file _, _ :: _, _ => none
  | Node.dir es, k :: p, d =>
      match p with
      | [] =>
          match findEntry es k with
          | some (Node.dir _) => none
          | _ => some (Node.dir (setEntry es k (Node.file d)))
      | _ :: _ =>
          match findEntry es k with
          | some c => (writeFileAt c p d).map (fun c2 => Node.dir (setEntry es k c2))
          | none => none

/-- `fs::write`. -/
def fsWrite (maxp : Nat) (fs : Node) (p : Path) (d : List Nat) : Option Node :=
  if pathBytes p ≤ maxp then writeFileAt fs p d else none

/-- `fs::copy`: the source must be a file. -/
def copyFile (maxp : Nat) (fs : Node) (src dst : Path) : Option Node :=
  if pathBytes src ≤ maxp ∧ pathBytes dst ≤ maxp then
    match lookupNode fs src with
    | some (Node.file d) => writeFileAt fs dst d
    | _ => none
  else none

/-- Remove the entry at a path; the parent chain must exist. -/
def eraseAt : Node → Path → Option Node
  | _, [] => none
  | Node.file _, _ :: _ => none
  | Node.dir es, k :: p =>
      match p with
      | [] => some (Node.dir (eraseEntry es k))
      | _ :: _ =>
          match findEntry es k with
          | some c => (eraseAt c p).map (fun c2 => Node.dir (setEntry es k c2))
          | none => none

/-- `fs::remove_dir_all`: the target must exist and be a directory. -/
def removeDirAll (fs : Node) (p : Path) : Option Node :=
  match lookupNode fs p with
  | some (Node.dir _) => eraseAt fs p
  | _ => none

/-- `fs::remove_file`: the target must exist and be a file. -/
def removeFile (fs : Node) (p : Path) : Option Node :=
  match lookupNode fs p with
  | some (Node.file _) => eraseAt fs p
  | _ => none

mutual

/-- `copy_dir_recursive` from `update.rs`, embedded step for step: return
`Ok` without copying when the source is missing, `create_dir_all` the
destination, then `read_dir` the source and copy each entry — recursing
for directories, `fs::copy` otherwise — reading the live filesystem at
each step, exactly as the interleaved Rust recursion does.  `fuel`
bounds the recursion depth; when the real recursion would descend until
the OS rejects the over-long path, every finite fuel yields `false`
just as every real run yields `Err`. -/
def copy_dir_recursive (maxp : Nat) : Nat → Node → Path → Path → Bool × Node
  | 0, fs, _, _ => (false, fs)
  | fuel + 1, fs, src, dst =>
      if existsAt fs src then
        match createDirAll maxp fs dst with
        | none => (false, fs)
        | some fs1 =>
            match lookupNode fs1 src with
            | some (Node.dir es) => cdrEntries maxp fuel fs1 src dst (es.map Prod.fst)
            | _ => (false, fs1)
      else (true, fs)

/-- The `for entry in fs::read_dir(src)?` loop of `copy_dir_recursive`:
the entry names were captured by `read_dir`, but each entry's type and
contents are re-read from the current filesystem. -/
def cdrEntries (maxp : Nat) : Nat → Node → Path → Path → List String → Bool × Node
  | _, fs, _, _, [] => (true, fs)
  | fuel, fs, src, dst, k :: ks =>
      match lookupNode fs (src ++ [k]) with
      | some (Node.dir _) =>
          match copy_dir_recursive maxp fuel fs (src ++ [k]) (dst ++ [k]) with
          | (true, fs2) => cdrEntries maxp fuel fs2 src dst ks
          | (false, fs2) => (false, fs2)
      | _ =>
          match copyFile maxp fs (src ++ [k]) (dst ++ [k]) with
          | some fs2 => cdrEntries maxp fuel fs2 src dst ks
          | none => (false, fs)

end

/-- The fixed binary names snapshotted and restored by `update.rs`. -/
def binaries : List String := ["kernelle", "jerrod", "blizz", "violet", "adam", "sentinel"]

/-- The `for binary in &binaries` loop of `create_snapshot`: back up each
named binary that currently exists. -/
def snapshotBins (maxp : Nat) : Node → Path → Path → List String → Bool × Node
  | fs, _, _, [] => (true, fs)
  | fs, instDir, binsSnap, b :: rest =>
      if existsAt fs (instDir ++ [b]) then
        match copyFile maxp fs (instDir ++ [b]) (binsSnap ++ [b]) with
        | some fs2 => snapshotBins maxp fs2 instDir binsSnap rest
        | none => (false, fs)
      else snapshotBins maxp fs instDir binsSnap rest

/-- `create_snapshot` from `update.rs`: create
`<kernelle_home>/snapshots/pre_update_<ts>`, recursively copy the state
directory into its `kernelle_home` subdirectory, then back up each
present binary into `bins`.  Returns the snapshot path on success,
`none` on failure, along with the filesystem as mutated so far. -/
def create_snapshot (maxp fuel : Nat) (ts : String) (fs : Node)
    (kernelle_home install_dir : Path) : Option Path × Node :=
  let snapshot_base := kernelle_home ++ ["snapshots"]
  match createDirAll maxp fs snapshot_base with
  | none => (none, fs)
  | some fs1 =>
      let snapshot_dir := snapshot_base ++ ["pre_update_" ++ ts]
      match createDirAll maxp fs1 snapshot_dir with
      | none => (none, fs1)
      | some fs2 =>
          match copy_dir_recursive maxp fuel fs2 kernelle_home
              (snapshot_dir ++ ["kernelle_home"]) with
          | (false, fs3) => (none, fs3)
          | (true, fs3) =>
              match createDirAll maxp fs3 (snapshot_dir ++ ["bins"]) with
              | none => (none, fs3)
              | some fs4 =>
                  match snapshotBins maxp fs4 install_dir (snapshot_dir ++ ["bins"])
                      binaries with
                  | (false, fs5) => (none, fs5)
                  | (true, fs5) => (some snapshot_dir, fs5)

/-- The state-directory block of `perform_rollback` (the
`if kernelle_backup.exists()` body): copy the current snapshots subtree
aside into a fresh tempdir, clear the state directory, restore it from
the backup, then put the preserved snapshots subtree back. -/
def restore_state_dir (maxp fuel : Nat) (fs : Node)
    (snapshot_path kernelle_home temp : Path) : Bool × Node :=
  let kernelle_backup := snapshot_path ++ ["kernelle_home"]
  if existsAt fs kernelle_backup then
    match createDirAll maxp fs temp with
    | none => (false, fs)
    | some fsA =>
        let snapshots_dir := kernelle_home ++ ["snapshots"]
        match (if existsAt fsA snapshots_dir then
                copy_dir_recursive maxp fuel fsA snapshots_dir (temp ++ ["snapshots"])
              else (true, fsA)) with
        | (false, fs1) => (false, fs1)
        | (true, fs1) =>
            match (if existsAt fs1 kernelle_home then removeDirAll fs1 kernelle_home
                  else some fs1) with
            | none => (false, fs1)
            | some fs2 =>
                match copy_dir_recursive maxp fuel fs2 kernelle_backup kernelle_home with
                | (false, fs3) => (false, fs3)
                | (true, fs3) =>
                    match (if existsAt fs3 (kernelle_home ++ ["snapshots"]) then
                            removeDirAll fs3 (kernelle_home ++ ["snapshots"])
                          else some fs3) with
                    | none => (false, fs3)
                    | some fs4 =>
                        copy_dir_recursive maxp fuel fs4 (temp ++ ["snapshots"])
                          snapshots_dir
  else (true, fs)

/-- The `for binary in &binaries` loop of the rollback binary block:
for each name with a backup present, remove the current production
binary if any and copy the backup into place. -/
def restoreBinList (maxp : Nat) : Node → Path → Path → List String → Bool × Node
  | fs, _, _, [] => (true, fs)
  | fs, binsBackup, instDir, b :: rest =>
      if existsAt fs (binsBackup ++ [b]) then
        match (if existsAt fs (instDir ++ [b]) then removeFile fs (instDir ++ [b])
              else some fs) with
        | none => (false, fs)
        | some fs1 =>
            match copyFile maxp fs1 (binsBackup ++ [b]) (instDir ++ [b]) with
            | none => (false, fs1)
            | some fs2 => restoreBinList maxp fs2 binsBackup instDir rest
      else restoreBinList maxp fs binsBackup instDir rest

/-- The binary-restoration block of `perform_rollback` (the
`if bins_backup.exists()` body). -/
def restore_binaries (maxp : Nat) (fs : Node) (snapshot_path install_dir : Path) :
    Bool × Node :=
  let bins_backup := snapshot_path ++ ["bins"]
  if existsAt fs bins_backup then
    restoreBinList maxp fs bins_backup install_dir binaries
  else (true, fs)

/-- Rollback failure modes: the up-front snapshot existence check, an
I/O failure in one of the copy/remove steps, or the post-rollback
verification failing. -/
inductive RollbackErr where
  | snapshotMissing : RollbackErr
  | ioFailure : RollbackErr
  | verifyFailed : RollbackErr
deriving DecidableEq, Repr

/-- `perform_rollback` from `update.rs`: check the snapshot directory
exists, restore the state directory (preserving the snapshots subtree),
restore backed-up binaries, then run `verify_installation`.  `verify`
is the external `kernelle --version` smoke test as a function of the
filesystem it runs against. -/
def perform_rollback (maxp fuel : Nat) (verify : Node → Bool) (fs : Node)
    (snapshot_path kernelle_home install_dir temp : Path) :
    Except RollbackErr Unit × Node :=
  if existsAt fs snapshot_path then
    match restore_state_dir maxp fuel fs snapshot_path kernelle_home temp with
    | (false, fs1) => (Except.error RollbackErr.ioFailure, fs1)
    | (true, fs1) =>
        match restore_binaries maxp fs1 snapshot_path install_dir with
        | (false, fs2) => (Except.error RollbackErr.ioFailure, fs2)
        | (true, fs2) =>
            if verify fs2 then (Except.ok (), fs2)
            else (Except.error RollbackErr.verifyFailed, fs2)
  else (Except.error RollbackErr.snapshotMissing, fs)

/-- Substring test used by the extracted-directory scan
(`file_name().contains("kernelle")`). -/
def strContains (hay sub : String) : Bool := decide (sub.data <:+: hay.data)

/-- The scan at the end of `download_and_extract`: iterate the staging
directory's entries and return the first directory whose name contains
`"kernelle"` and whose path differs from the staging root (the latter
is always true for a `read_dir` entry, as in the source). -/
def findExtracted (staging : Path) : List (String × Node) → Option String
  | [] => none
  | (k, n) :: rest =>
      match n with
      | Node.dir _ =>
          if strContains k "kernelle" ∧ staging ++ [k] ≠ staging then some k
          else findExtracted staging rest
      | Node.file _ => findExtracted staging rest

/-- Entries of the directory at `p` (empty when absent or a file). -/
def dirEntries (fs : Node) (p : Path) : List (String × Node) :=
  match lookupNode fs p with
  | some (Node.dir es) => es
  | _ => []

/-- Subtree rooted at `p` (an empty directory when absent). -/
def subtreeAt (fs : Node) (p : Path) : Node :=
  (lookupNode fs p).getD (Node.dir [])

/-- Error taxonomy of the update run, by failing stage; the two rollback
outcomes compose the original error with the rollback result. -/
inductive UpdateErr where
  | resolution : UpdateErr
  | stagingSetup : UpdateErr
  | download : UpdateErr
  | extraction : UpdateErr
  | stagingBuild : UpdateErr
  | stagingSmoke : UpdateErr
  | snapshot : UpdateErr
  | installFailure : UpdateErr
  | verificationFailure : UpdateErr
  | rolledBack : UpdateErr → UpdateErr
  | rollbackFailed : UpdateErr → RollbackErr → UpdateErr
deriving DecidableEq, Repr

/-- The external collaborators of one update run: the GitHub release
service, the `tar` subprocess, `install.sh` in staging mode (touching
only the staging subtree, per its override contract) and in production
mode (an arbitrary filesystem transformation), and the
`kernelle --version` smoke test. -/
structure Oracle where
  latestTag : Option String
  tarballURL : String → Option String
  tarballBytes : String → Option (List Nat)
  tarResult : List Nat → Option (List (String × Node))
  stagingInstall : Node → Bool × Node
  stagingSmoke : Node → Bool
  installRun : Node → Bool × Node
  verifyOk : Node → Bool

/-- Apply the entries produced by `tar -xzf` inside the staging
directory. -/
def applyTar (fs : Node) (staging : Path) : List (String × Node) → Node
  | [] => fs
  | (k, n) :: rest => applyTar (writeAt fs (staging ++ [k]) n) staging rest

/-- `download_and_extract` from `update.rs`: fetch the release
descriptor, download the tarball, save it as `kernelle.tar.gz` in the
staging directory, extract it there, then scan for the extracted
directory. -/
def download_and_extract (maxp : Nat) (o : Oracle) (version : String) (fs : Node)
    (staging : Path) : Except UpdateErr Path × Node :=
  match o.tarballURL version with
  | none => (Except.error UpdateErr.download, fs)
  | some url =>
      match o.tarballBytes url with
      | none => (Except.error UpdateErr.download, fs)
      | some bytes =>
          match fsWrite maxp fs (staging ++ ["kernelle.tar.gz"]) bytes with
          | none => (Except.error UpdateErr.download, fs)
          | some fs1 =>
              match o.tarResult bytes with
              | none => (Except.error UpdateErr.extraction, fs1)
              | some entries =>
                  let fs2 := applyTar fs1 staging entries
                  match findExtracted staging (dirEntries fs2 staging) with
                  | some name => (Except.ok (staging ++ [name]), fs2)
                  | none => (Except.error UpdateErr.extraction, fs2)

/-- `test_build_in_staging` from `update.rs`: require
`scripts/install.sh` in the extracted tree, run it against the staged
`KERNELLE_HOME`/`INSTALL_DIR`, require the staged `kernelle` binary to
exist, then smoke-test it. -/
def test_build_in_staging (o : Oracle) (fs : Node)
    (extracted staging binsStaging : Path) : Except UpdateErr Unit × Node :=
  if existsAt fs (extracted ++ ["scripts", "install.sh"]) then
    match o.stagingInstall (subtreeAt fs staging) with
    | (ok, sub) =>
        let fs1 := writeAt fs staging sub
        if ok then
          if existsAt fs1 (binsStaging ++ ["kernelle"]) then
            if o.stagingSmoke (subtreeAt fs1 staging) then (Except.ok (), fs1)
            else (Except.error UpdateErr.stagingSmoke, fs1)
          else (Except.error UpdateErr.stagingSmoke, fs1)
        else (Except.error UpdateErr.stagingBuild, fs1)
  else (Except.error UpdateErr.stagingBuild, fs)

/-- The install/verify/rollback tail of `execute` (the
`match install_new_version(...)` expression): on success verify and
clean up staging; on install or verification failure roll back and
compose the rollback outcome with the original error. -/
def install_and_verify (maxp fuel : Nat) (o : Oracle) (fs : Node)
    (snapshot_dir kernelle_home install_dir temp staging : Path) :
    Except UpdateErr Unit × Node :=
  match o.installRun fs with
  | (true, fs1) =>
      if o.verifyOk fs1 then
        ((Except.ok ()), (removeDirAll fs1 staging).getD fs1)
      else
        match perform_rollback maxp fuel o.verifyOk fs1 snapshot_dir kernelle_home
            install_dir temp with
        | (Except.ok _, fs2) =>
            (Except.error (UpdateErr.rolledBack UpdateErr.verificationFailure), fs2)
        | (Except.error rbe, fs2) =>
            (Except.error (UpdateErr.rollbackFailed UpdateErr.verificationFailure rbe), fs2)
  | (false, fs1) =>
      match perform_rollback maxp fuel o.verifyOk fs1 snapshot_dir kernelle_home
          install_dir temp with
      | (Except.ok _, fs2) =>
          (Except.error (UpdateErr.rolledBack UpdateErr.installFailure), fs2)
      | (Except.error rbe, fs2) =>
          (Except.error (UpdateErr.rollbackFailed UpdateErr.installFailure rbe), fs2)

/-- `execute` from `update.rs`: resolve the target version, create the
staging workspace, download and extract the release, validate it in
staging, snapshot the current installation, then install and verify
with automatic rollback.  `staging` is the fresh `TempDir` path, `temp`
the tempdir a rollback would use, `ts` the snapshot timestamp. -/
def execute (maxp fuel : Nat) (o : Oracle) (version : Option String) (ts : String)
    (fs0 : Node) (staging kernelle_home install_dir temp : Path) :
    Except UpdateErr Unit × Node :=
  match (match version with
         | some v => some v
         | none => o.latestTag) with
  | none => (Except.error UpdateErr.resolution, fs0)
  | some target =>
      match createDirAll maxp fs0 staging with
      | none => (Except.error UpdateErr.stagingSetup, fs0)
      | some fsA =>
          match createDirAll maxp fsA (staging ++ ["kernelle_home"]) with
          | none => (Except.error UpdateErr.stagingSetup, fsA)
          | some fsB =>
              match createDirAll maxp fsB (staging ++ ["bins"]) with
              | none => (Except.error UpdateErr.stagingSetup, fsB)
              | some fs1 =>
                  match download_and_extract maxp o target fs1 staging with
                  | (Except.error e, fs2) => (Except.error e, fs2)
                  | (Except.ok extracted, fs2) =>
                      match test_build_in_staging o fs2 extracted
                          (staging ++ ["kernelle_home"]) (staging ++ ["bins"]) with
                      | (Except.error e, fs3) => (Except.error e, fs3)
                      | (Except.ok _, fs3) =>
                          match create_snapshot maxp fuel ts fs3 kernelle_home
                              install_dir with
                          | (none, fs4) => (Except.error UpdateErr.snapshot, fs4)
                          | (some snapshot_dir, fs4) =>
                              install_and_verify maxp fuel o fs4 snapshot_dir
                                kernelle_home install_dir temp staging

/-- Whether a node is a directory. -/
def Node.isDirB : Node → Bool
  | Node.file _ => false
  | Node.dir _ => true

/-- The conditions under which writing a file at `p` succeeds: `p` is
nonempty, its parent chain exists as directories, and the slot is not
an existing directory. -/
def canWriteFile : Node → Path → Bool
  | _, [] => false
  | Node.file _, _ :: _ => false
  | Node.dir es, k :: p =>
      match p with
      | [] =>
          match findEntry es k with
          | some (Node.dir _) => false
          | _ => true
      | _ :: _ =>
          match findEntry es k with
          | some c => canWriteFile c p
          | none => false

/-- The conditions under which erasing the entry at `p` is possible:
`p` is nonempty and its parent chain exists as directories. -/
def canErase : Node → Path → Bool
  | _, [] => false
  | Node.file _, _ :: _ => false
  | Node.dir es, k :: p =>
      match p with
      | [] => true
      | _ :: _ =>
          match findEntry es k with
          | some c => canErase c p
          | none => false

/-- Spec-level total erase: drop the entry at `p` when reachable. -/
def eraseNode : Node → Path → Node
  | fs, [] => fs
  | Node.file d, _ :: _ => Node.file d
  | Node.dir es, k :: p =>
      match p with
      | [] => Node.dir (eraseEntry es k)
      | _ :: _ =>
          match findEntry es k with
          | some c => Node.dir (setEntry es k (eraseNode c p))
          | none => Node.dir es

mutual

/-- Depth of a node (directories add one level). -/
def Node.depthN : Node → Nat
  | Node.file _ => 0
  | Node.dir es => depthL es + 1

/-- Greatest depth among entries. -/
def depthL : List (String × Node) → Nat
  | [] => 0
  | (_, c) :: rest => max (Node.depthN c) (depthL rest)

end

mutual

/-- Greatest path-byte length of any chain of names inside a node:
copying the node below a destination extends that destination's path
by at most this much. -/
def Node.weightN : Node → Nat
  | Node.file _ => 0
  | Node.dir es => weightL es

/-- Greatest path weight among entries. -/
def weightL : List (String × Node) → Nat
  | [] => 0
  | (k, c) :: rest => max (k.length + 1 + Node.weightN c) (weightL rest)

end

mutual

/-- Well-formedness of a filesystem node: directory entry names are
unique at every level (as on a real filesystem). -/
def Node.wfB : Node → Bool
  | Node.file _ => true
  | Node.dir es => wfL es

/-- Well-formedness of an entry list. -/
def wfL : List (String × Node) → Bool
  | [] => true
  | (k, c) :: rest => (findEntry rest k).isNone && Node.wfB c && wfL rest

end

/-- Every strict prefix of `p` exists as a directory. -/
def chainDirsB : Node → Path → Bool
  | _, [] => true
  | Node.file _, _ :: _ => false
  | Node.dir es, k :: p =>
      match p with
      | [] => true
      | _ :: _ =>
          match findEntry es k with
          | some c => chainDirsB c p
          | none => false

/-- Spec-side description of the extracted-directory scan: the names of
all top-level directories whose name contains `"kernelle"`, in
directory order. -/
def matchesOf (es : List (String × Node)) : List String :=
  (es.filter (fun kc => kc.2.isDirB && strContains kc.1 "kernelle")).map Prod.fst

/-! ### Concrete inputs used to instantiate the theorems below -/

/-- A release service that cannot resolve a latest version. -/
def oracleNoRelease : Oracle :=
  ⟨none, fun _ => none, fun _ => none, fun _ => none, fun n => (true, n),
   fun _ => true, fun n => (true, n), fun _ => true⟩

/-- A run whose production install step fails and whose smoke test fails. -/
def oracleInstallFails : Oracle :=
  ⟨some "v", fun _ => none, fun _ => none, fun _ => none, fun n => (true, n),
   fun _ => true, fun n => (false, n), fun _ => false⟩

/-- An extraction producing two top-level directories whose names both
contain the substring "kernelle". -/
def oracleTwoMatches : Oracle :=
  ⟨some "v", fun _ => some "u", fun _ => some [7],
   fun _ => some [("kernelle-a", Node.dir []), ("kernelle-b", Node.dir [])],
   fun n => (true, n), fun _ => true, fun n => (true, n), fun _ => true⟩

/-- A filesystem holding only an empty staging directory. -/
def fsStagingOnly : Node := Node.dir [("stg", Node.dir [])]

/-- Contents of a snapshots subtree holding one snapshot "pre" with a state
backup and one backed-up binary. -/
def s0Example : List (String × Node) :=
  [("pre", Node.dir [("kernelle_home", Node.dir []),
    ("bins", Node.dir [("kernelle", Node.file [1])])])]

/-- A production filesystem whose state directory "home" holds the snapshots
subtree `s0Example`, next to an empty binary directory "bin". -/
def fsExample : Node :=
  Node.dir [("home", Node.dir [("snapshots", Node.dir s0Example)]),
    ("bin", Node.dir [])]

/-- A snapshot with one backed-up binary, next to a binary directory holding a
binary that has no backup. -/
def fsBinsExample : Node :=
  Node.dir [("snap", Node.dir [("bins", Node.dir [("kernelle", Node.file [9])])]),
    ("bin", Node.dir [("jerrod", Node.file [5])])]

/-- A snapshot directory with a binary backup but no state backup, next to a
populated state directory and an empty binary directory. -/
def fsNoStateBackup : Node :=
  Node.dir [("snap", Node.dir [("bins", Node.dir [("kernelle", Node.file [7])])]),
    ("home", Node.dir [("cfg", Node.file [1])]), ("bin", Node.dir [])]

/-! ### Entry-list lemmas -/

theorem findEntry_setEntry_self (es : List (String × Node)) (k : String) (v : Node) :
    findEntry (setEntry es k v) k = some v := by
  induction es with
  | nil => simp [setEntry, findEntry]
  | cons e rest ih =>
      obtain ⟨k2, w⟩ := e
      by_cases h : k2 = k
      · simp [setEntry, h, findEntry]
      · simp [setEntry, h, findEntry, ih]

theorem findEntry_setEntry_ne (es : List (String × Node)) (k k2 : String) (v : Node)
    (h : k2 ≠ k) : findEntry (setEntry es k v) k2 = findEntry es k2 := by
  induction es with
  | nil => simp [setEntry, findEntry, Ne.symm h]
  | cons e rest ih =>
      obtain ⟨k3, w⟩ := e
      by_cases h3 : k3 = k
      · subst h3
        simp [setEntry, findEntry, Ne.symm h]
      · simp [setEntry, findEntry, h3, ih]

theorem findEntry_eraseEntry_self (es : List (String × Node)) (k : String) :
    findEntry (eraseEntry es k) k = none := by
  induction es with
  | nil => simp [eraseEntry, findEntry]
  | cons e rest ih =>
      obtain ⟨k2, w⟩ := e
      by_cases h : k2 = k <;> simp [eraseEntry, findEntry, h, ih]

theorem findEntry_eraseEntry_ne (es : List (String × Node)) (k k2 : String)
    (h : k2 ≠ k) : findEntry (eraseEntry es k) k2 = findEntry es k2 := by
  induction es with
  | nil => simp [eraseEntry]
  | cons e rest ih =>
      obtain ⟨k3, w⟩ := e
      by_cases h3 : k3 = k
      · subst h3
        simp [eraseEntry, findEntry, Ne.symm h, ih]
      · simp [eraseEntry, findEntry, h3, ih]

theorem setEntry_fresh (es : List (String × Node)) (k : String) (v : Node)
    (h : findEntry es k = none) : setEntry es k v = es ++ [(k, v)] := by
  induction es with
  | nil => simp [setEntry]
  | cons e rest ih =>
      obtain ⟨k2, w⟩ := e
      by_cases h2 : k2 = k
      · simp [findEntry, h2] at h
      · have h' : findEntry rest k = none := by simpa [findEntry, h2] using h
        simp [setEntry, h2, ih h']

theorem setEntry_eq_of_findEntry (es : List (String × Node)) (k : String) (c : Node)
    (h : findEntry es k = some c) : setEntry es k c = es := by
  induction es with
  | nil => simp [findEntry] at h
  | cons e rest ih =>
      obtain ⟨k2, w⟩ := e
      by_cases h2 : k2 = k
      · subst h2
        have : w = c := by simpa [findEntry] using h
        simp [setEntry, this]
      · have h' : findEntry rest k = some c := by simpa [findEntry, h2] using h
        simp [setEntry, h2, ih h']

theorem setEntry_setEntry (es : List (String × Node)) (k : String) (v w : Node) :
    setEntry (setEntry es k v) k w = setEntry es k w := by
  induction es with
  | nil => simp [setEntry]
  | cons e rest ih =>
      obtain ⟨k2, u⟩ := e
      by_cases h : k2 = k <;> simp [setEntry, h, ih]

/-! ### Path lookup lemmas -/

theorem lookupNode_append (fs : Node) (p q : Path) :
    lookupNode fs (p ++ q) = (lookupNode fs p).bind (fun n => lookupNode n q) := by
  induction p generalizing fs with
  | nil => simp [lookupNode]
  | cons k p ih =>
      cases fs with
      | file d => simp [lookupNode]
      | dir es =>
          simp only [List.cons_append, lookupNode]
          cases findEntry es k with
          | none => simp
          | some c => simp [ih]

/-- Paths that are not related by the prefix order: they name disjoint
parts of the tree. -/
def Divergent (p q : Path) : Prop := ¬ (p <+: q) ∧ ¬ (q <+: p)

instance (p q : Path) : Decidable (Divergent p q) := by
  unfold Divergent; infer_instance

theorem Divergent.symm {p q : Path} (h : Divergent p q) : Divergent q p := ⟨h.2, h.1⟩

theorem Divergent.cons_iff {k : String} {p q : Path} :
    Divergent (k :: p) (k :: q) ↔ Divergent p q := by
  unfold Divergent
  simp [List.cons_prefix_cons]

theorem Divergent.ne_nil_left {p q : Path} (h : Divergent p q) : p ≠ [] := by
  rintro rfl
  exact h.1 (List.nil_prefix)

theorem Divergent.ne_nil_right {p q : Path} (h : Divergent p q) : q ≠ [] :=
  h.symm.ne_nil_left

theorem Divergent.append_right {p q : Path} (h : Divergent p q) (r : Path) :
    Divergent p (q ++ r) := by
  constructor
  · intro hc
    rcases (List.prefix_or_prefix_of_prefix hc (List.prefix_append q r)) with h1 | h1
    · exact h.1 h1
    · exact h.2 h1
  · intro hc
    exact h.2 ((List.prefix_append q r).trans hc)

theorem Divergent.append_left {p q : Path} (h : Divergent p q) (r : Path) :
    Divergent (p ++ r) q :=
  (h.symm.append_right r).symm

/-! ### `writeAt` lemmas -/

theorem writeAt_empty_chain (p : Path) (v : Node) :
    writeAt (Node.dir []) p v = chainNode p v := by
  induction p with
  | nil => simp [writeAt, chainNode]
  | cons k p ih => simp [writeAt, chainNode, findEntry, setEntry, ih]

theorem lookupNode_writeAt_self (fs : Node) (p : Path) (v : Node) :
    lookupNode (writeAt fs p v) p = some v := by
  induction p generalizing fs with
  | nil => simp [writeAt, lookupNode]
  | cons k p ih =>
      simp [writeAt, lookupNode, findEntry_setEntry_self, ih]

theorem lookupNode_writeAt_append (fs : Node) (p q : Path) (v : Node) :
    lookupNode (writeAt fs p v) (p ++ q) = lookupNode v q := by
  rw [lookupNode_append, lookupNode_writeAt_self]
  rfl

theorem lookupNode_chainNode (q r : Path) (v : Node) :
    lookupNode (chainNode (q ++ r) v) q = some (chainNode r v) := by
  induction q with
  | nil => simp [lookupNode]
  | cons a q ih => simp [chainNode, lookupNode, findEntry, ih]

theorem lookupNode_writeAt_divergent (fs : Node) (p q : Path) (v : Node)
    (h : Divergent p q) : lookupNode (writeAt fs p v) q = lookupNode fs q := by
  induction p generalizing fs q with
  | nil => exact absurd (List.nil_prefix) h.1
  | cons a p ih =>
      cases q with
      | nil => exact absurd (List.nil_prefix) h.2
      | cons b q =>
          by_cases hab : a = b
          · subst hab
            have h' : Divergent p q := Divergent.cons_iff.mp h
            have hQ : lookupNode (Node.dir []) q = none := by
              cases q with
              | nil => exact absurd List.nil_prefix h'.2
              | cons c q2 => simp [lookupNode, findEntry]
            cases fs with
            | dir es =>
                cases hfe : findEntry es a with
                | some c =>
                    have h2 := ih c q h'
                    simp only [writeAt, lookupNode, hfe, Option.getD_some,
                      findEntry_setEntry_self, h2]
                | none =>
                    have h2 := ih (Node.dir []) q h'
                    simp only [writeAt, lookupNode, hfe, Option.getD_none,
                      findEntry_setEntry_self, h2, hQ]
            | file d =>
                have h2 := ih (Node.dir []) q h'
                simp only [writeAt, lookupNode, findEntry, Option.getD_none,
                  findEntry_setEntry_self, h2, hQ]
                simp [h2, hQ]
          · cases fs with
            | dir es =>
                simp only [writeAt, lookupNode,
                  findEntry_setEntry_ne _ _ _ _ (Ne.symm hab)]
            | file d =>
                simp [writeAt, lookupNode, setEntry, findEntry, hab]

theorem lookupNode_writeAt_chain (fs : Node) (q r : Path) (v : Node)
    (h : lookupNode fs q = none) :
    lookupNode (writeAt fs (q ++ r) v) q = some (chainNode r v) := by
  induction q generalizing fs with
  | nil => simp [lookupNode] at h
  | cons a q ih =>
      cases fs with
      | dir es =>
          cases hfe : findEntry es a with
          | some c =>
              have h' : lookupNode c q = none := by
                simpa [lookupNode, hfe] using h
              have h2 := ih c h'
              simp only [List.cons_append, List.append_eq, writeAt, lookupNode, hfe,
                Option.getD_some, findEntry_setEntry_self, h2]
          | none =>
              simp only [List.cons_append, List.append_eq, writeAt, lookupNode, hfe,
                Option.getD_none, findEntry_setEntry_self, writeAt_empty_chain,
                lookupNode_chainNode]
      | file d =>
          simp only [List.cons_append, List.append_eq, writeAt, lookupNode, findEntry,
            Option.getD_none, findEntry_setEntry_self, writeAt_empty_chain,
            lookupNode_chainNode]
          simp [lookupNode_chainNode]

theorem writeAt_writeAt_append (fs : Node) (p q : Path) (u v : Node) :
    writeAt (writeAt fs p u) (p ++ q) v = writeAt fs p (writeAt u q v) := by
  induction p generalizing fs with
  | nil => simp [writeAt]
  | cons k p ih =>
      simp only [writeAt, List.cons_append, List.append_eq, findEntry_setEntry_self,
        Option.getD_some, setEntry_setEntry, ih]

/-! ### Dirness along paths -/

theorem prefix_dirs_of_lookup_some {fs : Node} {p : Path} {n : Node}
    (h : lookupNode fs p = some n) :
    ∀ r, r <+: p → r ≠ p → isDirAt fs r = true := by
  induction p generalizing fs with
  | nil =>
      intro r hr hne
      exact absurd (List.prefix_nil.mp hr) hne
  | cons k p ih =>
      intro r hr hne
      cases fs with
      | file d => simp [lookupNode] at h
      | dir es =>
          cases hfe : findEntry es k with
          | none => simp [lookupNode, hfe] at h
          | some c =>
              have h' : lookupNode c p = some n := by simpa [lookupNode, hfe] using h
              cases r with
              | nil => simp [isDirAt, lookupNode]
              | cons b r2 =>
                  have hb : b = k ∧ r2 <+: p := List.cons_prefix_cons.mp hr
                  obtain ⟨rfl, hr2⟩ := hb
                  have hne2 : r2 ≠ p := fun hh => hne (by rw [hh])
                  have := ih h' r2 hr2 hne2
                  simpa [isDirAt, lookupNode, hfe] using this

theorem lookup_some_of_append {fs : Node} {p q : Path} {n : Node}
    (h : lookupNode fs (p ++ q) = some n) :
    ∃ m, lookupNode fs p = some m ∧ lookupNode m q = some n := by
  rw [lookupNode_append] at h
  cases hm : lookupNode fs p with
  | none => rw [hm] at h; simp at h
  | some m => rw [hm] at h; exact ⟨m, rfl, h⟩

theorem isDirAt_of_lookup_append {fs : Node} {p : Path} {k : String} {q : Path} {n : Node}
    (h : lookupNode fs (p ++ k :: q) = some n) : isDirAt fs p = true := by
  have hne : p ≠ p ++ k :: q := by
    intro hh
    have hlen := congrArg List.length hh
    simp at hlen
  exact prefix_dirs_of_lookup_some h p (List.prefix_append p (k :: q)) hne

/-- The three mutually exclusive relations between two paths. -/
theorem path_trichotomy (p q : Path) : p <+: q ∨ q <+: p ∨ Divergent p q := by
  by_cases h1 : p <+: q
  · exact Or.inl h1
  · by_cases h2 : q <+: p
    · exact Or.inr (Or.inl h2)
    · exact Or.inr (Or.inr ⟨h1, h2⟩)

theorem isDirAt_writeAt_below {fs : Node} {q : Path} (r : Path) (v : Node)
    (hq : isDirAt fs q = true) (hr : r ≠ []) :
    isDirAt (writeAt fs (q ++ r) v) q = true := by
  induction q generalizing fs with
  | nil =>
      cases r with
      | nil => exact absurd rfl hr
      | cons c r2 =>
          cases fs with
          | file d => simp [isDirAt, lookupNode] at hq
          | dir es => simp [writeAt, isDirAt, lookupNode]
  | cons k q ih =>
      cases fs with
      | file d => simp [isDirAt, lookupNode] at hq
      | dir es =>
          cases hfe : findEntry es k with
          | none => simp [isDirAt, lookupNode, hfe] at hq
          | some c =>
              have hq' : isDirAt c q = true := by
                simpa [isDirAt, lookupNode, hfe] using hq
              have := ih hq'
              simpa [writeAt, isDirAt, lookupNode, hfe, findEntry_setEntry_self] using this

theorem isDirAt_writeAt_of_not_prefix {fs : Node} {p q : Path} {v : Node}
    (hq : isDirAt fs q = true) (hnp : ¬ p <+: q) :
    isDirAt (writeAt fs p v) q = true := by
  rcases path_trichotomy p q with h | h | h
  · exact absurd h hnp
  · obtain ⟨r, rfl⟩ := h
    have hr : r ≠ [] := by
      rintro rfl
      exact hnp (by simp)
    exact isDirAt_writeAt_below r v hq hr
  · unfold isDirAt
    rw [lookupNode_writeAt_divergent fs p q v h]
    exact hq

/-! ### `create_dir_all` characterization -/

theorem createDirAllGo_empty (p : Path) :
    createDirAllGo (Node.dir []) p = some (chainNode p (Node.dir [])) := by
  induction p with
  | nil => simp [createDirAllGo, chainNode]
  | cons k p ih => simp [createDirAllGo, findEntry, ih, chainNode, setEntry]

theorem createDirAllGo_fresh {fs : Node} {p : Path}
    (h : lookupNode fs p = none) (hc : chainFree fs p = true) :
    createDirAllGo fs p = some (writeAt fs p (Node.dir [])) := by
  induction p generalizing fs with
  | nil => simp [lookupNode] at h
  | cons k p ih =>
      cases fs with
      | file d => simp [chainFree] at hc
      | dir es =>
          cases hfe : findEntry es k with
          | some c =>
              have h' : lookupNode c p = none := by simpa [lookupNode, hfe] using h
              have hc' : chainFree c p = true := by simpa [chainFree, hfe] using hc
              simp [createDirAllGo, hfe, ih h' hc', writeAt]
          | none =>
              simp [createDirAllGo, hfe, createDirAllGo_empty, writeAt,
                writeAt_empty_chain]

theorem createDirAllGo_noop {fs : Node} {p : Path} (h : isDirAt fs p = true) :
    createDirAllGo fs p = some fs := by
  induction p generalizing fs with
  | nil =>
      cases fs with
      | file d => simp [isDirAt, lookupNode] at h
      | dir es => simp [createDirAllGo]
  | cons k p ih =>
      cases fs with
      | file d => simp [isDirAt, lookupNode] at h
      | dir es =>
          cases hfe : findEntry es k with
          | none => simp [isDirAt, lookupNode, hfe] at h
          | some c =>
              have h' : isDirAt c p = true := by simpa [isDirAt, lookupNode, hfe] using h
              simp [createDirAllGo, hfe, ih h', setEntry_eq_of_findEntry es k c hfe]

theorem createDirAllGo_frame {p : Path} :
    ∀ {fs fs' : Node} {q : Path}, createDirAllGo fs p = some fs' → Divergent q p →
      lookupNode fs' q = lookupNode fs q := by
  induction p with
  | nil =>
      intro fs fs' q h hd
      exact absurd (List.nil_prefix) hd.2
  | cons k p ih =>
      intro fs fs' q h hd
      cases fs with
      | file d => simp [createDirAllGo] at h
      | dir es =>
          rcases hgo : createDirAllGo ((findEntry es k).getD (Node.dir [])) p with _ | c2
          · simp [createDirAllGo, hgo] at h
          · have hfs' : fs' = Node.dir (setEntry es k c2) := by
              simp [createDirAllGo, hgo] at h
              exact h.symm
            subst hfs'
            cases q with
            | nil => exact absurd (List.nil_prefix) hd.1
            | cons b q2 =>
                by_cases hbk : b = k
                · subst hbk
                  have hd' : Divergent q2 p := Divergent.cons_iff.mp hd
                  have hlk := ih hgo hd'
                  cases hfe : findEntry es b with
                  | some c =>
                      rw [hfe] at hgo hlk
                      simp only [Option.getD_some] at hgo hlk
                      simp [lookupNode, findEntry_setEntry_self, hfe, hlk]
                  | none =>
                      rw [hfe] at hgo hlk
                      simp only [Option.getD_none] at hgo hlk
                      have hQ : lookupNode (Node.dir []) q2 = none := by
                        cases q2 with
                        | nil => exact absurd List.nil_prefix hd'.1
                        | cons c q3 => simp [lookupNode, findEntry]
                      simp [lookupNode, findEntry_setEntry_self, hfe, hlk, hQ]
                · simp [lookupNode, findEntry_setEntry_ne _ _ _ _ hbk]

theorem createDirAllGo_isDir {p : Path} :
    ∀ {fs fs' : Node}, createDirAllGo fs p = some fs' → isDirAt fs' p = true := by
  induction p with
  | nil =>
      intro fs fs' h
      cases fs with
      | file d => simp [createDirAllGo] at h
      | dir es =>
          simp [createDirAllGo] at h
          subst h
          simp [isDirAt, lookupNode]
  | cons k p ih =>
      intro fs fs' h
      cases fs with
      | file d => simp [createDirAllGo] at h
      | dir es =>
          rcases hgo : createDirAllGo ((findEntry es k).getD (Node.dir [])) p with _ | c2
          · simp [createDirAllGo, hgo] at h
          · have hfs' : fs' = Node.dir (setEntry es k c2) := by
              simp [createDirAllGo, hgo] at h
              exact h.symm
            subst hfs'
            have := ih hgo
            simp [isDirAt, lookupNode, findEntry_setEntry_self]
            simpa [isDirAt] using this

theorem createDirAllGo_mono {p : Path} :
    ∀ {fs fs' : Node} {q : Path}, createDirAllGo fs p = some fs' →
      isDirAt fs q = true → isDirAt fs' q = true := by
  induction p with
  | nil =>
      intro fs fs' q h hq
      cases fs with
      | file d => simp [createDirAllGo] at h
      | dir es =>
          simp [createDirAllGo] at h
          subst h
          exact hq
  | cons k p ih =>
      intro fs fs' q h hq
      cases fs with
      | file d => simp [createDirAllGo] at h
      | dir es =>
          rcases hgo : createDirAllGo ((findEntry es k).getD (Node.dir [])) p with _ | c2
          · simp [createDirAllGo, hgo] at h
          · have hfs' : fs' = Node.dir (setEntry es k c2) := by
              simp [createDirAllGo, hgo] at h
              exact h.symm
            subst hfs'
            cases q with
            | nil => simp [isDirAt, lookupNode]
            | cons b q2 =>
                by_cases hbk : b = k
                · subst hbk
                  cases hfe : findEntry es b with
                  | none => simp [isDirAt, lookupNode, hfe] at hq
                  | some c =>
                      rw [hfe] at hgo
                      simp only [Option.getD_some] at hgo
                      have hq' : isDirAt c q2 = true := by
                        simpa [isDirAt, lookupNode, hfe] using hq
                      have := ih hgo hq'
                      simpa [isDirAt, lookupNode, findEntry_setEntry_self] using this
                · have hq' := hq
                  simp only [isDirAt, lookupNode, findEntry_setEntry_ne _ _ _ _ hbk]
                  simpa [isDirAt, lookupNode] using hq'

/-! ### `writeFileAt` and `eraseAt` characterizations -/

theorem lookupNode_singleton (n : Node) (k : String) :
    lookupNode n [k] = (match n with
      | Node.dir es => findEntry es k
      | Node.file _ => none) := by
  cases n with
  | file d => simp [lookupNode]
  | dir es =>
      cases hfe : findEntry es k with
      | none => simp [lookupNode, hfe]
      | some c => simp [lookupNode, hfe]

theorem mem_map_fst_of_findEntry {es : List (String × Node)} {k : String} {c : Node}
    (h : findEntry es k = some c) : k ∈ es.map Prod.fst := by
  induction es with
  | nil => simp [findEntry] at h
  | cons e rest ih =>
      obtain ⟨k2, w⟩ := e
      by_cases h2 : k2 = k
      · subst h2; simp
      · have h' : findEntry rest k = some c := by simpa [findEntry, h2] using h
        simp [ih h']

theorem writeFileAt_eq (p : Path) : ∀ (fs : Node) (d : List Nat),
    writeFileAt fs p d =
      (if canWriteFile fs p = true then some (writeAt fs p (Node.file d)) else none) := by
  induction p with
  | nil => intro fs d; simp [writeFileAt, canWriteFile]
  | cons k p ih =>
      intro fs d
      cases fs with
      | file d0 => simp [writeFileAt, canWriteFile]
      | dir es =>
          cases p with
          | nil =>
              cases hfe : findEntry es k with
              | none => simp [writeFileAt, canWriteFile, hfe, writeAt]
              | some c =>
                  cases c with
                  | dir ds => simp [writeFileAt, canWriteFile, hfe]
                  | file fd => simp [writeFileAt, canWriteFile, hfe, writeAt]
          | cons x p2 =>
              cases hfe : findEntry es k with
              | none => simp [writeFileAt, canWriteFile, hfe]
              | some c =>
                  simp only [writeFileAt, canWriteFile, hfe, ih c d, writeAt,
                    Option.getD_some]
                  by_cases hc : canWriteFile c (x :: p2) = true
                  · simp [hc]
                  · simp [hc]

theorem eraseAt_eq (p : Path) : ∀ (fs : Node),
    eraseAt fs p = (if canErase fs p = true then some (eraseNode fs p) else none) := by
  induction p with
  | nil => intro fs; simp [eraseAt, canErase]
  | cons k p ih =>
      intro fs
      cases fs with
      | file d0 => simp [eraseAt, canErase]
      | dir es =>
          cases p with
          | nil => simp [eraseAt, canErase, eraseNode]
          | cons x p2 =>
              cases hfe : findEntry es k with
              | none => simp [eraseAt, canErase, hfe]
              | some c =>
                  simp only [eraseAt, canErase, eraseNode, hfe, ih c]
                  by_cases hc : canErase c (x :: p2) = true
                  · simp [hc]
                  · simp [hc]

theorem canWriteFile_of_file {p : Path} : ∀ {fs : Node} {d0 : List Nat},
    lookupNode fs p = some (Node.file d0) → p ≠ [] → canWriteFile fs p = true := by
  induction p with
  | nil => intro fs d0 h hne; exact absurd rfl hne
  | cons k p ih =>
      intro fs d0 h hne
      cases fs with
      | file d => simp [lookupNode] at h
      | dir es =>
          cases hfe : findEntry es k with
          | none => simp [lookupNode, hfe] at h
          | some c =>
              have h' : lookupNode c p = some (Node.file d0) := by
                simpa [lookupNode, hfe] using h
              cases p with
              | nil =>
                  have : c = Node.file d0 := by simpa [lookupNode] using h'
                  subst this
                  simp [canWriteFile, hfe]
              | cons x p2 =>
                  simp [canWriteFile, hfe, ih h' (by simp)]

theorem canWriteFile_fresh {q : Path} : ∀ {fs : Node} {x : String},
    isDirAt fs q = true → isDirAt fs (q ++ [x]) = false → canWriteFile fs (q ++ [x]) = true := by
  induction q with
  | nil =>
      intro fs x h1 h2
      cases fs with
      | file d => simp [isDirAt, lookupNode] at h1
      | dir es =>
          cases hfe : findEntry es x with
          | none => simp [canWriteFile, hfe]
          | some c =>
              cases c with
              | file d => simp [canWriteFile, hfe]
              | dir ds =>
                  rw [show ([] : Path) ++ [x] = [x] from rfl, isDirAt,
                    lookupNode_singleton] at h2
                  simp [hfe] at h2
  | cons k q ih =>
      intro fs x h1 h2
      cases fs with
      | file d => simp [isDirAt, lookupNode] at h1
      | dir es =>
          cases hfe : findEntry es k with
          | none => simp [isDirAt, lookupNode, hfe] at h1
          | some c =>
              have h1' : isDirAt c q = true := by simpa [isDirAt, lookupNode, hfe] using h1
              have h2' : isDirAt c (q ++ [x]) = false := by
                simpa [isDirAt, lookupNode, hfe] using h2
              have := ih h1' h2'
              cases hq : q ++ [x] with
              | nil => exact absurd hq (by simp)
              | cons y ys =>
                  rw [hq] at this
                  simp [canWriteFile, hfe, hq, this]

theorem canErase_of_lookup {p : Path} : ∀ {fs : Node} {n : Node},
    lookupNode fs p = some n → p ≠ [] → canErase fs p = true := by
  induction p with
  | nil => intro fs n h hne; exact absurd rfl hne
  | cons k p ih =>
      intro fs n h hne
      cases fs with
      | file d => simp [lookupNode] at h
      | dir es =>
          cases hfe : findEntry es k with
          | none => simp [lookupNode, hfe] at h
          | some c =>
              have h' : lookupNode c p = some n := by simpa [lookupNode, hfe] using h
              cases p with
              | nil => simp [canErase]
              | cons x p2 => simp [canErase, hfe, ih h' (by simp)]

theorem lookupNode_eraseNode_self {p : Path} (hne : p ≠ []) : ∀ (fs : Node),
    lookupNode (eraseNode fs p) p = none := by
  induction p with
  | nil => exact absurd rfl hne
  | cons k p ih =>
      intro fs
      cases fs with
      | file d => simp [eraseNode, lookupNode]
      | dir es =>
          cases p with
          | nil => simp [eraseNode, lookupNode, findEntry_eraseEntry_self]
          | cons x p2 =>
              cases hfe : findEntry es k with
              | none => simp [eraseNode, lookupNode, hfe]
              | some c =>
                  simp [eraseNode, lookupNode, hfe, findEntry_setEntry_self,
                    ih (by simp) c]

theorem lookupNode_eraseNode_append {p : Path} (hne : p ≠ []) (fs : Node) (q : Path) :
    lookupNode (eraseNode fs p) (p ++ q) = none := by
  rw [lookupNode_append, lookupNode_eraseNode_self hne]
  rfl

theorem lookupNode_eraseNode_divergent {p : Path} : ∀ {fs : Node} {q : Path},
    Divergent p q → lookupNode (eraseNode fs p) q = lookupNode fs q := by
  induction p with
  | nil => intro fs q h; exact absurd List.nil_prefix h.1
  | cons k p ih =>
      intro fs q h
      cases fs with
      | file d => simp [eraseNode]
      | dir es =>
          cases q with
          | nil => exact absurd List.nil_prefix h.2
          | cons b q2 =>
              by_cases hbk : b = k
              · subst hbk
                have h' : Divergent p q2 := Divergent.cons_iff.mp h
                cases p with
                | nil => exact absurd List.nil_prefix h'.1
                | cons x p2 =>
                    cases hfe : findEntry es b with
                    | none => simp [eraseNode, hfe]
                    | some c =>
                        simp [eraseNode, lookupNode, hfe, findEntry_setEntry_self,
                          ih h']
              · cases p with
                | nil =>
                    simp [eraseNode, lookupNode,
                      findEntry_eraseEntry_ne _ _ _ hbk]
                | cons x p2 =>
                    cases hfe : findEntry es k with
                    | none => simp [eraseNode, lookupNode, hfe]
                    | some c =>
                        simp [eraseNode, lookupNode, hfe,
                          findEntry_setEntry_ne _ _ _ _ hbk]

theorem isDirAt_eraseNode_below {q : Path} : ∀ {fs : Node} (r : Path),
    isDirAt fs q = true → r ≠ [] → isDirAt (eraseNode fs (q ++ r)) q = true := by
  induction q with
  | nil =>
      intro fs r h hr
      cases fs with
      | file d => simp [isDirAt, lookupNode] at h
      | dir es =>
          cases r with
          | nil => exact absurd rfl hr
          | cons c r2 =>
              cases r2 with
              | nil => simp [eraseNode, isDirAt, lookupNode]
              | cons c2 r3 =>
                  cases hfe : findEntry es c with
                  | none => simp [eraseNode, hfe, isDirAt, lookupNode]
                  | some cc => simp [eraseNode, hfe, isDirAt, lookupNode]
  | cons k q ih =>
      intro fs r h hr
      cases fs with
      | file d => simp [isDirAt, lookupNode] at h
      | dir es =>
          cases hfe : findEntry es k with
          | none => simp [isDirAt, lookupNode, hfe] at h
          | some c =>
              have h' : isDirAt c q = true := by simpa [isDirAt, lookupNode, hfe] using h
              have hrec := ih r h' hr
              cases hq : q ++ r with
              | nil =>
                  cases q with
                  | nil => exact absurd hq hr
                  | cons y ys => simp at hq
              | cons y ys =>
                  rw [hq] at hrec
                  simp only [List.cons_append, List.append_eq, eraseNode, hq, hfe]
                  simpa [isDirAt, lookupNode, findEntry_setEntry_self] using hrec

theorem isDirAt_eraseNode_of_not_prefix {fs : Node} {p q : Path}
    (hq : isDirAt fs q = true) (hnp : ¬ p <+: q) :
    isDirAt (eraseNode fs p) q = true := by
  rcases path_trichotomy p q with h | h | h
  · exact absurd h hnp
  · obtain ⟨r, rfl⟩ := h
    have hr : r ≠ [] := by
      rintro rfl
      exact hnp (by simp)
    exact isDirAt_eraseNode_below r hq hr
  · unfold isDirAt
    rw [lookupNode_eraseNode_divergent h]
    exact hq

/-! ### `chainFree` lemmas -/

theorem chainFree_of_isDirAt {p : Path} : ∀ {fs : Node},
    isDirAt fs p = true → chainFree fs p = true := by
  induction p with
  | nil =>
      intro fs h
      cases fs with
      | file d => simp [isDirAt, lookupNode] at h
      | dir es => simp [chainFree]
  | cons k p ih =>
      intro fs h
      cases fs with
      | file d => simp [isDirAt, lookupNode] at h
      | dir es =>
          cases hfe : findEntry es k with
          | none => simp [isDirAt, lookupNode, hfe] at h
          | some c =>
              have h' : isDirAt c p = true := by simpa [isDirAt, lookupNode, hfe] using h
              simp [chainFree, hfe, ih h']

theorem chainFree_of_prefix_dirs {p : Path} : ∀ {fs : Node},
    (∀ r, r <+: p → r ≠ p → isDirAt fs r = true) → lookupNode fs p = none →
      chainFree fs p = true := by
  induction p with
  | nil => intro fs _ h; simp [lookupNode] at h
  | cons k p ih =>
      intro fs hdirs h
      have hfs := hdirs [] (List.nil_prefix) (by simp)
      cases fs with
      | file d => simp [isDirAt, lookupNode] at hfs
      | dir es =>
          cases hfe : findEntry es k with
          | none => simp [chainFree, hfe]
          | some c =>
              have h' : lookupNode c p = none := by simpa [lookupNode, hfe] using h
              have hdirs' : ∀ r, r <+: p → r ≠ p → isDirAt c r = true := by
                intro r hr hne
                have := hdirs (k :: r) (List.cons_prefix_cons.mpr ⟨rfl, hr⟩)
                  (by simpa using hne)
                simpa [isDirAt, lookupNode, hfe] using this
              simp [chainFree, hfe, ih hdirs' h']

theorem chainFree_append {p : Path} : ∀ {fs : Node} (r : Path),
    chainFree fs p = true → lookupNode fs p = none → chainFree fs (p ++ r) = true := by
  induction p with
  | nil => intro fs r _ h; simp [lookupNode] at h
  | cons k p ih =>
      intro fs r hc h
      cases fs with
      | file d => simp [chainFree] at hc
      | dir es =>
          cases hfe : findEntry es k with
          | none => simp [chainFree, hfe]
          | some c =>
              have h' : lookupNode c p = none := by simpa [lookupNode, hfe] using h
              have hc' : chainFree c p = true := by simpa [chainFree, hfe] using hc
              simp [chainFree, hfe, ih r hc' h']

/-! ### Arithmetic and structural helpers -/

theorem pathBytes_append (p q : Path) :
    pathBytes (p ++ q) = pathBytes p + pathBytes q := by
  induction p with
  | nil => simp [pathBytes]
  | cons k p ih => simp [pathBytes, ih]; omega

theorem findEntry_append (xs ys : List (String × Node)) (k : String) :
    findEntry (xs ++ ys) k =
      (match findEntry xs k with
       | some v => some v
       | none => findEntry ys k) := by
  induction xs with
  | nil => simp [findEntry]
  | cons e rest ih =>
      obtain ⟨k2, w⟩ := e
      by_cases h : k2 = k <;> simp [findEntry, h, ih]

theorem wfL_append_right (xs ys : List (String × Node)) (h : wfL (xs ++ ys) = true) :
    wfL ys = true := by
  induction xs with
  | nil => simpa using h
  | cons e rest ih =>
      obtain ⟨k, c⟩ := e
      have h' : wfL (rest ++ ys) = true := by
        simp only [List.cons_append, wfL, Bool.and_eq_true] at h
        exact h.2
      exact ih h'

theorem wfL_append_findEntry {xs : List (String × Node)} {k : String} {c : Node}
    {ys : List (String × Node)} (h : wfL (xs ++ (k, c) :: ys) = true) :
    findEntry xs k = none := by
  induction xs with
  | nil => simp [findEntry]
  | cons e rest ih =>
      obtain ⟨k0, c0⟩ := e
      simp only [List.cons_append, wfL, Bool.and_eq_true, Option.isNone_iff_eq_none] at h
      by_cases hk : k0 = k
      · subst hk
        have : findEntry (rest ++ (k0, c) :: ys) k0 ≠ none := by
          rw [findEntry_append]
          cases hfr : findEntry rest k0 with
          | some v => simp
          | none => simp [findEntry]
        exact absurd h.1.1 this
      · simp [findEntry, hk, ih h.2]

theorem weightL_head (k : String) (c : Node) (rest : List (String × Node)) :
    k.length + 1 + Node.weightN c ≤ weightL ((k, c) :: rest) := by
  simp [weightL]

theorem weightL_tail (k : String) (c : Node) (rest : List (String × Node)) :
    weightL rest ≤ weightL ((k, c) :: rest) := by
  simp [weightL]

theorem depthL_head (k : String) (c : Node) (rest : List (String × Node)) :
    Node.depthN c ≤ depthL ((k, c) :: rest) := by
  simp [depthL]

theorem depthL_tail (k : String) (c : Node) (rest : List (String × Node)) :
    depthL rest ≤ depthL ((k, c) :: rest) := by
  simp [depthL]

theorem isDirAt_prefix {fs : Node} {p r : Path}
    (h : isDirAt fs (p ++ r) = true) : isDirAt fs p = true := by
  unfold isDirAt at h ⊢
  rcases hl : lookupNode fs (p ++ r) with _ | m
  · rw [hl] at h; simp at h
  · rw [hl] at h
    cases m with
    | file d => simp at h
    | dir es =>
        obtain ⟨m2, hm2, hm3⟩ := lookup_some_of_append hl
        rw [hm2]
        cases m2 with
        | dir es2 => simp
        | file d2 =>
            cases r with
            | nil => simp [lookupNode] at hm3
            | cons x r2 => simp [lookupNode] at hm3

theorem prefix_concat {r p : Path} {x : String}
    (h : r <+: p ++ [x]) (hne : r ≠ p ++ [x]) : r <+: p := by
  have hlen : r.length ≤ p.length := by
    have h1 : r.length ≤ p.length + 1 := by simpa using h.length_le
    rcases Nat.eq_or_lt_of_le h1 with h2 | h2
    · exact absurd (h.eq_of_length (by simpa using h2)) hne
    · omega
  exact List.prefix_of_prefix_length_le h (List.prefix_append p [x]) hlen

theorem isDirAt_writeAt_strict_prefix {p : Path} : ∀ {fs : Node} {r : Path} (v : Node),
    r <+: p → r ≠ p → isDirAt (writeAt fs p v) r = true := by
  induction p with
  | nil =>
      intro fs r v hr hne
      exact absurd (List.prefix_nil.mp hr) hne
  | cons k p ih =>
      intro fs r v hr hne
      cases r with
      | nil => simp [writeAt, isDirAt, lookupNode]
      | cons b r2 =>
          obtain ⟨rfl, hr2⟩ := List.cons_prefix_cons.mp hr
          have hne2 : r2 ≠ p := fun hh => hne (by rw [hh])
          cases fs with
          | dir es =>
              have h2 := @ih ((findEntry es b).getD (Node.dir [])) r2 v hr2 hne2
              simpa [writeAt, isDirAt, lookupNode, findEntry_setEntry_self] using h2
          | file d =>
              have h2 := @ih (Node.dir []) r2 v hr2 hne2
              simpa [writeAt, isDirAt, lookupNode, findEntry, findEntry_setEntry_self]
                using h2

theorem not_isDirAt_of_canWriteFile {p : Path} : ∀ {fs : Node},
    canWriteFile fs p = true → isDirAt fs p = false := by
  induction p with
  | nil => intro fs h; simp [canWriteFile] at h
  | cons k p ih =>
      intro fs h
      cases fs with
      | file d => simp [canWriteFile] at h
      | dir es =>
          cases p with
          | nil =>
              cases hfe : findEntry es k with
              | none => simp [isDirAt, lookupNode, hfe]
              | some c =>
                  cases c with
                  | dir ds => simp [canWriteFile, hfe] at h
                  | file fd => simp [isDirAt, lookupNode, hfe]
          | cons x p2 =>
              cases hfe : findEntry es k with
              | none => simp [isDirAt, lookupNode, hfe]
              | some c =>
                  have h' : canWriteFile c (x :: p2) = true := by
                    simpa [canWriteFile, hfe] using h
                  simpa [isDirAt, lookupNode, hfe] using ih h'

theorem copyFile_some {maxp : Nat} {fs : Node} {src dst : Path} {fs2 : Node}
    (h : copyFile maxp fs src dst = some fs2) :
    ∃ d, lookupNode fs src = some (Node.file d) ∧ canWriteFile fs dst = true ∧
      fs2 = writeAt fs dst (Node.file d) := by
  unfold copyFile at h
  split at h
  · rcases hl : lookupNode fs src with _ | m
    · rw [hl] at h; simp at h
    · rw [hl] at h
      cases m with
      | dir es => simp at h
      | file d =>
          have h2 : writeFileAt fs dst d = some fs2 := h
          rw [writeFileAt_eq] at h2
          split at h2
          · exact ⟨d, rfl, by assumption, by simpa using h2.symm⟩
          · simp at h2
  · simp at h

theorem copyFile_frame {maxp : Nat} {fs : Node} {src dst : Path} {fs2 : Node} {q : Path}
    (h : copyFile maxp fs src dst = some fs2) (hd : Divergent q dst) :
    lookupNode fs2 q = lookupNode fs q := by
  obtain ⟨d, _, _, rfl⟩ := copyFile_some h
  exact lookupNode_writeAt_divergent fs dst q _ hd.symm

theorem copyFile_mono {maxp : Nat} {fs : Node} {src dst : Path} {fs2 : Node} {q : Path}
    (h : copyFile maxp fs src dst = some fs2) (hq : isDirAt fs q = true) :
    isDirAt fs2 q = true := by
  obtain ⟨d, _, hcw, rfl⟩ := copyFile_some h
  apply isDirAt_writeAt_of_not_prefix hq
  intro hp
  obtain ⟨r, rfl⟩ := hp
  exact absurd ( isDirAt_prefix hq) (by simp [not_isDirAt_of_canWriteFile hcw])

theorem createDirAll_some {maxp : Nat} {fs : Node} {p : Path} {fs' : Node}
    (h : createDirAll maxp fs p = some fs') :
    createDirAllGo fs p = some fs' ∧ pathBytes p ≤ maxp := by
  unfold createDirAll at h
  split at h
  · exact ⟨h, by assumption⟩
  · simp at h

/-! ### Frame property of `copy_dir_recursive`: it writes only below its
destination -/

theorem cdrEntries_frame_aux (maxp fuel : Nat)
    (hcdr : ∀ (fs : Node) (src dst q : Path), Divergent q dst →
      lookupNode (copy_dir_recursive maxp fuel fs src dst).2 q = lookupNode fs q) :
    ∀ (names : List String) (fs : Node) (src dst q : Path), Divergent q dst →
      lookupNode (cdrEntries maxp fuel fs src dst names).2 q = lookupNode fs q := by
  intro names
  induction names with
  | nil => intro fs src dst q h; simp [cdrEntries]
  | cons k ks ih =>
      intro fs src dst q h
      simp only [cdrEntries]
      cases hl : lookupNode fs (src ++ [k]) with
      | some n =>
          cases n with
          | dir ds =>
              rcases hc : copy_dir_recursive maxp fuel fs (src ++ [k]) (dst ++ [k])
                with ⟨b, fs2⟩
              have hfr : lookupNode fs2 q = lookupNode fs q := by
                have := hcdr fs (src ++ [k]) (dst ++ [k]) q (h.append_right [k])
                rw [hc] at this
                exact this
              cases b
              · simpa using hfr
              · rw [ih fs2 src dst q h]
                exact hfr
          | file d =>
              cases hcf : copyFile maxp fs (src ++ [k]) (dst ++ [k]) with
              | none => simp
              | some fs2 =>
                  rw [ih fs2 src dst q h]
                  exact copyFile_frame hcf (h.append_right [k])
      | none =>
          cases hcf : copyFile maxp fs (src ++ [k]) (dst ++ [k]) with
          | none => simp
          | some fs2 =>
              rw [ih fs2 src dst q h]
              exact copyFile_frame hcf (h.append_right [k])

theorem cdr_frame (maxp : Nat) : ∀ (fuel : Nat) (fs : Node) (src dst q : Path),
    Divergent q dst →
    lookupNode (copy_dir_recursive maxp fuel fs src dst).2 q = lookupNode fs q := by
  intro fuel
  induction fuel with
  | zero => intro fs src dst q h; simp [copy_dir_recursive]
  | succ fuel ih =>
      intro fs src dst q h
      simp only [copy_dir_recursive]
      cases he : existsAt fs src
      · rw [if_neg (by simp)]
      · rw [if_pos rfl]
        cases hca : createDirAll maxp fs dst with
        | none => simp only [hca]
        | some fs1 =>
            have hgo := (createDirAll_some hca).1
            have hfr1 : lookupNode fs1 q = lookupNode fs q :=
              createDirAllGo_frame hgo h
            simp only [hca]
            cases hl : lookupNode fs1 src with
            | none => simpa [hl] using hfr1
            | some n =>
                cases n with
                | file d => simpa [hl] using hfr1
                | dir es =>
                    simp only [hl]
                    rw [cdrEntries_frame_aux maxp fuel ih (es.map Prod.fst) fs1 src dst q h]
                    exact hfr1

/-! ### Monotonicity: every operation of the flow preserves existing
directories -/

theorem cdrEntries_mono_aux (maxp fuel : Nat)
    (hcdr : ∀ (fs : Node) (src dst q : Path), isDirAt fs q = true →
      isDirAt (copy_dir_recursive maxp fuel fs src dst).2 q = true) :
    ∀ (names : List String) (fs : Node) (src dst q : Path), isDirAt fs q = true →
      isDirAt (cdrEntries maxp fuel fs src dst names).2 q = true := by
  intro names
  induction names with
  | nil => intro fs src dst q h; simpa [cdrEntries] using h
  | cons k ks ih =>
      intro fs src dst q h
      simp only [cdrEntries]
      cases hl : lookupNode fs (src ++ [k]) with
      | some n =>
          cases n with
          | dir ds =>
              rcases hc : copy_dir_recursive maxp fuel fs (src ++ [k]) (dst ++ [k])
                with ⟨b, fs2⟩
              have hm : isDirAt fs2 q = true := by
                have := hcdr fs (src ++ [k]) (dst ++ [k]) q h
                rw [hc] at this
                exact this
              cases b
              · simpa using hm
              · exact ih fs2 src dst q hm
          | file d =>
              cases hcf : copyFile maxp fs (src ++ [k]) (dst ++ [k]) with
              | none => simpa using h
              | some fs2 => exact ih fs2 src dst q (copyFile_mono hcf h)
      | none =>
          cases hcf : copyFile maxp fs (src ++ [k]) (dst ++ [k]) with
          | none => simpa using h
          | some fs2 => exact ih fs2 src dst q (copyFile_mono hcf h)

theorem cdr_descend_entries_aux (maxp fuel : Nat)
    (hcdr : ∀ (fs : Node) (src q : Path), q ≠ [] →
      (∀ r, r <+: q → r ≠ q → isDirAt fs (src ++ r) = true) →
      (copy_dir_recursive maxp fuel fs src (src ++ q)).1 = false)
    (hmono : ∀ (fs : Node) (src dst q : Path), isDirAt fs q = true →
      isDirAt (copy_dir_recursive maxp fuel fs src dst).2 q = true) :
    ∀ (names : List String) (fs : Node) (src : Path) (qh : String) (qt : Path),
      (∀ r, r <+: (qh :: qt) → isDirAt fs (src ++ r) = true) →
      qh ∈ names →
      (cdrEntries maxp fuel fs src (src ++ qh :: qt) names).1 = false := by
  intro names
  induction names with
  | nil => intro fs src qh qt _ hmem; simp at hmem
  | cons k ks ih =>
      intro fs src qh qt hinv hmem
      simp only [cdrEntries]
      by_cases hk : k = qh
      · subst hk
        have hdk : isDirAt fs (src ++ [k]) = true :=
          hinv [k] (List.cons_prefix_cons.mpr ⟨rfl, List.nil_prefix⟩)
        obtain ⟨ds, hds⟩ : ∃ ds, lookupNode fs (src ++ [k]) = some (Node.dir ds) := by
          unfold isDirAt at hdk
          rcases hl : lookupNode fs (src ++ [k]) with _ | n
          · rw [hl] at hdk; simp at hdk
          · rw [hl] at hdk
            cases n with
            | file d => simp at hdk
            | dir ds => exact ⟨ds, rfl⟩
        have hpath : (src ++ k :: qt) ++ [k] = (src ++ [k]) ++ (qt ++ [k]) := by simp
        have hfalse := hcdr fs (src ++ [k]) (qt ++ [k]) (by simp)
          (by
            intro r hr hne
            have hr2 : r <+: qt := prefix_concat hr hne
            have : (src ++ [k]) ++ r = src ++ (k :: r) := by simp
            rw [this]
            exact hinv (k :: r) (List.cons_prefix_cons.mpr ⟨rfl, hr2⟩))
        simp only [hds, hpath]
        rcases hc : copy_dir_recursive maxp fuel fs (src ++ [k]) ((src ++ [k]) ++ (qt ++ [k]))
          with ⟨b, fs2⟩
        rw [hc] at hfalse
        cases b
        · simp
        · simp at hfalse
      · have hmem2 : qh ∈ ks := by
          rcases List.mem_cons.mp hmem with h1 | h1
          · exact absurd h1.symm hk
          · exact h1
        cases hl : lookupNode fs (src ++ [k]) with
        | some n =>
            cases n with
            | dir ds =>
                rcases hc : copy_dir_recursive maxp fuel fs (src ++ [k])
                    ((src ++ qh :: qt) ++ [k]) with ⟨b, fs2⟩
                have hinv2 : ∀ r, r <+: (qh :: qt) → isDirAt fs2 (src ++ r) = true := by
                  intro r hr
                  have := hmono fs (src ++ [k]) ((src ++ qh :: qt) ++ [k]) (src ++ r)
                    (hinv r hr)
                  rw [hc] at this
                  exact this
                cases b
                · simp
                · exact ih fs2 src qh qt hinv2 hmem2
            | file d =>
                cases hcf : copyFile maxp fs (src ++ [k]) ((src ++ qh :: qt) ++ [k]) with
                | none => simp
                | some fs2 =>
                    have hinv2 : ∀ r, r <+: (qh :: qt) → isDirAt fs2 (src ++ r) = true :=
                      fun r hr => copyFile_mono hcf (hinv r hr)
                    exact ih fs2 src qh qt hinv2 hmem2
        | none =>
            cases hcf : copyFile maxp fs (src ++ [k]) ((src ++ qh :: qt) ++ [k]) with
            | none => simp
            | some fs2 =>
                have hinv2 : ∀ r, r <+: (qh :: qt) → isDirAt fs2 (src ++ r) = true :=
                  fun r hr => copyFile_mono hcf (hinv r hr)
                exact ih fs2 src qh qt hinv2 hmem2

theorem cdr_mono (maxp : Nat) : ∀ (fuel : Nat) (fs : Node) (src dst q : Path),
    isDirAt fs q = true →
    isDirAt (copy_dir_recursive maxp fuel fs src dst).2 q = true := by
  intro fuel
  induction fuel with
  | zero => intro fs src dst q h; simpa [copy_dir_recursive] using h
  | succ fuel ih =>
      intro fs src dst q h
      simp only [copy_dir_recursive]
      cases he : existsAt fs src
      · rw [if_neg (by simp)]
        exact h
      · rw [if_pos rfl]
        cases hca : createDirAll maxp fs dst with
        | none => simpa [hca] using h
        | some fs1 =>
            have hgo := (createDirAll_some hca).1
            have hm1 : isDirAt fs1 q = true := createDirAllGo_mono hgo h
            simp only [hca]
            cases hl : lookupNode fs1 src with
            | none => simpa [hl] using hm1
            | some n =>
                cases n with
                | file d => simpa [hl] using hm1
                | dir es =>
                    simp only [hl]
                    exact cdrEntries_mono_aux maxp fuel ih (es.map Prod.fst)
                      fs1 src dst q hm1

/-- `copy_dir_recursive` never succeeds when the destination lies
strictly inside the source and the destination's parent chain already
exists: `create_dir_all` materializes the destination before `read_dir`,
so the recursion keeps descending into the copy it is creating, exactly
as the Rust recursion does, until the OS aborts it; for every finite
fuel, and whatever the I/O limit, the result is failure. -/
theorem cdr_descend (maxp : Nat) : ∀ (fuel : Nat) (fs : Node) (src q : Path), q ≠ [] →
    (∀ r, r <+: q → r ≠ q → isDirAt fs (src ++ r) = true) →
    (copy_dir_recursive maxp fuel fs src (src ++ q)).1 = false := by
  intro fuel
  induction fuel with
  | zero => intro fs src q hq hinv; simp [copy_dir_recursive]
  | succ fuel ih =>
      intro fs src q hq hinv
      simp only [copy_dir_recursive]
      have hsrc : isDirAt fs src = true := by
        have := hinv [] List.nil_prefix (fun hh => hq hh.symm)
        simpa using this
      have hex : existsAt fs src = true := by
        unfold isDirAt at hsrc
        unfold existsAt
        rcases hl : lookupNode fs src with _ | n
        · rw [hl] at hsrc; simp at hsrc
        · simp
      rw [if_pos hex]
      cases hca : createDirAll maxp fs (src ++ q) with
      | none => simp [hca]
      | some fs1 =>
          have hgo := (createDirAll_some hca).1
          have hinv1 : ∀ r, r <+: q → isDirAt fs1 (src ++ r) = true := by
            intro r hr
            by_cases hrq : r = q
            · subst hrq
              exact createDirAllGo_isDir hgo
            · exact createDirAllGo_mono hgo (hinv r hr hrq)
          have hsrc1 : isDirAt fs1 src = true := by
            have := hinv1 [] List.nil_prefix
            simpa using this
          obtain ⟨es, hes⟩ : ∃ es, lookupNode fs1 src = some (Node.dir es) := by
            unfold isDirAt at hsrc1
            rcases hl : lookupNode fs1 src with _ | n
            · rw [hl] at hsrc1; simp at hsrc1
            · rw [hl] at hsrc1
              cases n with
              | file d => simp at hsrc1
              | dir es => exact ⟨es, rfl⟩
          simp only [hca, hes]
          cases q with
          | nil => exact absurd rfl hq
          | cons qh qt =>
              have hqh : isDirAt fs1 (src ++ [qh]) = true :=
                hinv1 [qh] (List.cons_prefix_cons.mpr ⟨rfl, List.nil_prefix⟩)
              have hmem : qh ∈ es.map Prod.fst := by
                unfold isDirAt at hqh
                rw [lookupNode_append, hes] at hqh
                simp only [Option.some_bind] at hqh
                rw [lookupNode_singleton] at hqh
                cases hf : findEntry es qh with
                | none => simp [hf] at hqh
                | some c => exact mem_map_fst_of_findEntry hf
              exact cdr_descend_entries_aux maxp fuel ih (cdr_mono maxp fuel)
                (es.map Prod.fst) fs1 src qh qt hinv1 hmem

theorem chainDirsB_spec {p : Path} : ∀ {fs : Node},
    chainDirsB fs p = true → ∀ r, r <+: p → r ≠ p → isDirAt fs r = true := by
  induction p with
  | nil =>
      intro fs _ r hr hne
      exact absurd (List.prefix_nil.mp hr) hne
  | cons k p ih =>
      intro fs h r hr hne
      cases fs with
      | file d => simp [chainDirsB] at h
      | dir es =>
          cases r with
          | nil => simp [isDirAt, lookupNode]
          | cons b r2 =>
              obtain ⟨hb, hr2⟩ := List.cons_prefix_cons.mp hr
              subst hb
              have hne2 : r2 ≠ p := fun hh => hne (by rw [hh])
              cases p with
              | nil => exact absurd (List.prefix_nil.mp hr2) hne2
              | cons x p2 =>
                  cases hfe : findEntry es b with
                  | none => simp [chainDirsB, hfe] at h
                  | some c =>
                      have h' : chainDirsB c (x :: p2) = true := by
                        simpa [chainDirsB, hfe] using h
                      simpa [isDirAt, lookupNode, hfe] using ih h' r2 hr2 hne2

theorem cdr_noop (maxp fuel : Nat) (fs : Node) (src dst : Path)
    (h : existsAt fs src = false) :
    copy_dir_recursive maxp (fuel + 1) fs src dst = (true, fs) := by
  simp only [copy_dir_recursive]
  rw [if_neg (by simp [h])]

theorem removeDirAll_eq {fs : Node} {p : Path} {es : List (String × Node)}
    (h : lookupNode fs p = some (Node.dir es)) (hne : p ≠ []) :
    removeDirAll fs p = some (eraseNode fs p) := by
  unfold removeDirAll
  rw [h]
  rw [eraseAt_eq, if_pos (canErase_of_lookup h hne)]

theorem removeFile_eq {fs : Node} {p : Path} {d : List Nat}
    (h : lookupNode fs p = some (Node.file d)) (hne : p ≠ []) :
    removeFile fs p = some (eraseNode fs p) := by
  unfold removeFile
  rw [h]
  rw [eraseAt_eq, if_pos (canErase_of_lookup h hne)]

theorem divergent_append_singleton {p : Path} {b b2 : String} (h : b ≠ b2) :
    Divergent (p ++ [b]) (p ++ [b2]) := by
  constructor
  · intro hc
    have := hc.eq_of_length (by simp)
    have := List.append_cancel_left this
    simp at this
    exact h this
  · intro hc
    have := hc.eq_of_length (by simp)
    have := List.append_cancel_left this
    simp at this
    exact h this.symm

/-! ### Exact behaviour of `copy_dir_recursive` on a fresh, disjoint
destination: it reproduces the source subtree -/

theorem cdr_fresh_entries_aux (maxp fuel : Nat)
    (hcdr : ∀ (fs : Node) (src dst : Path) (es : List (String × Node)),
      lookupNode fs src = some (Node.dir es) → lookupNode fs dst = none →
      chainFree fs dst = true → wfL es = true → Divergent src dst →
      pathBytes src + weightL es ≤ maxp → pathBytes dst + weightL es ≤ maxp →
      depthL es + 1 ≤ fuel →
      copy_dir_recursive maxp fuel fs src dst = (true, writeAt fs dst (Node.dir es))) :
    ∀ (rest done : List (String × Node)) (fs : Node) (src dst : Path),
      lookupNode fs src = some (Node.dir (done ++ rest)) →
      lookupNode fs dst = none →
      chainFree fs dst = true →
      wfL (done ++ rest) = true →
      Divergent src dst →
      pathBytes src + weightL rest ≤ maxp →
      pathBytes dst + weightL rest ≤ maxp →
      depthL rest ≤ fuel →
      cdrEntries maxp fuel (writeAt fs dst (Node.dir done)) src dst (rest.map Prod.fst)
        = (true, writeAt fs dst (Node.dir (done ++ rest))) := by
  intro rest
  induction rest with
  | nil =>
      intro done fs src dst _ _ _ _ _ _ _ _
      simp [cdrEntries]
  | cons e rest2 ih =>
      obtain ⟨k, c⟩ := e
      intro done fs src dst hsrc hdst hcf hwf hdiv hbs hbd hdepth
      have hfd : findEntry done k = none := wfL_append_findEntry hwf
      have hwtail := wfL_append_right done _ hwf
      have hwparts : ((findEntry rest2 k).isNone = true ∧ Node.wfB c = true) ∧
          wfL rest2 = true := by
        simpa [wfL, Bool.and_eq_true] using hwtail
      have hlk : lookupNode (writeAt fs dst (Node.dir done)) (src ++ [k]) = some c := by
        rw [lookupNode_writeAt_divergent _ _ _ _ (hdiv.append_left [k]).symm]
        rw [lookupNode_append, hsrc]
        simp only [Option.some_bind]
        rw [lookupNode_singleton]
        simp [findEntry_append, hfd, findEntry]
      have hfreshk : lookupNode (writeAt fs dst (Node.dir done)) (dst ++ [k]) = none := by
        rw [lookupNode_writeAt_append, lookupNode_singleton]
        simpa using hfd
      have hdstdir : lookupNode (writeAt fs dst (Node.dir done)) dst =
          some (Node.dir done) := lookupNode_writeAt_self fs dst _
      have hbounds_src : pathBytes (src ++ [k]) + Node.weightN c ≤ maxp := by
        have h1 := weightL_head k c rest2
        rw [pathBytes_append]
        simp only [pathBytes]
        omega
      have hbounds_dst : pathBytes (dst ++ [k]) + Node.weightN c ≤ maxp := by
        have h1 := weightL_head k c rest2
        rw [pathBytes_append]
        simp only [pathBytes]
        omega
      have hstep : ∀ (v : Node),
          writeAt (writeAt fs dst (Node.dir done)) (dst ++ [k]) v =
            writeAt fs dst (Node.dir (done ++ [(k, v)])) := by
        intro v
        rw [writeAt_writeAt_append]
        congr 1
        simp only [writeAt]
        rw [setEntry_fresh done k v hfd]
      have hrec : ∀ (v : Node),
          cdrEntries maxp fuel (writeAt fs dst (Node.dir (done ++ [(k, v)]))) src dst
              (rest2.map Prod.fst) =
            (true, writeAt fs dst (Node.dir ((done ++ [(k, v)]) ++ rest2))) →
          cdrEntries maxp fuel (writeAt fs dst (Node.dir (done ++ [(k, v)]))) src dst
              (rest2.map Prod.fst) =
            (true, writeAt fs dst (Node.dir (done ++ (k, v) :: rest2))) := by
        intro v hh
        rw [hh]
        simp
      simp only [List.map_cons, cdrEntries, hlk]
      cases c with
      | file d =>
          have hcw : canWriteFile (writeAt fs dst (Node.dir done)) (dst ++ [k]) = true := by
            apply canWriteFile_fresh
            · unfold isDirAt
              rw [hdstdir]
            · unfold isDirAt
              rw [hfreshk]
          have hcfile : copyFile maxp (writeAt fs dst (Node.dir done)) (src ++ [k])
              (dst ++ [k]) = some (writeAt fs dst (Node.dir (done ++ [(k, Node.file d)]))) := by
            unfold copyFile
            rw [if_pos ⟨by simpa [Node.weightN] using
                  (Nat.le_trans (Nat.le_add_right _ _) hbounds_src),
                by simpa [Node.weightN] using
                  (Nat.le_trans (Nat.le_add_right _ _) hbounds_dst)⟩]
            simp only [hlk]
            rw [writeFileAt_eq, if_pos hcw, hstep]
          simp only [hcfile]
          have hsrc2 : lookupNode fs src =
              some (Node.dir ((done ++ [(k, Node.file d)]) ++ rest2)) := by
            simpa using hsrc
          have hwf2 : wfL ((done ++ [(k, Node.file d)]) ++ rest2) = true := by
            simpa using hwf
          have hbs2 : pathBytes src + weightL rest2 ≤ maxp :=
            Nat.le_trans (Nat.add_le_add_left (weightL_tail k _ rest2) _) hbs
          have hbd2 : pathBytes dst + weightL rest2 ≤ maxp :=
            Nat.le_trans (Nat.add_le_add_left (weightL_tail k _ rest2) _) hbd
          have hdepth2 : depthL rest2 ≤ fuel :=
            Nat.le_trans (depthL_tail k _ rest2) hdepth
          exact hrec (Node.file d)
            (ih (done ++ [(k, Node.file d)]) fs src dst hsrc2 hdst hcf hwf2 hdiv
              hbs2 hbd2 hdepth2)
      | dir ces =>
          have hchain2 : chainFree (writeAt fs dst (Node.dir done)) (dst ++ [k]) = true := by
            apply chainFree_of_prefix_dirs
            · intro r hr hne
              by_cases hrd : r = dst
              · subst hrd
                unfold isDirAt
                rw [hdstdir]
              · exact isDirAt_writeAt_strict_prefix _ (prefix_concat hr hne) hrd
            · exact hfreshk
          have hwces : wfL ces = true := by
            have := hwparts.1.2
            simpa [Node.wfB] using this
          have hdiv2 : Divergent (src ++ [k]) (dst ++ [k]) :=
            (hdiv.append_right [k]).append_left [k]
          have hbs2 : pathBytes (src ++ [k]) + weightL ces ≤ maxp := by
            simpa [Node.weightN] using hbounds_src
          have hbd2 : pathBytes (dst ++ [k]) + weightL ces ≤ maxp := by
            simpa [Node.weightN] using hbounds_dst
          have hdepth2 : depthL ces + 1 ≤ fuel := by
            have h1 := depthL_head k (Node.dir ces) rest2
            simp only [Node.depthN] at h1
            omega
          have hcall := hcdr (writeAt fs dst (Node.dir done)) (src ++ [k]) (dst ++ [k])
            ces hlk hfreshk hchain2 hwces hdiv2 hbs2 hbd2 hdepth2
          rw [hstep (Node.dir ces)] at hcall
          simp only [hcall]
          have hsrc2 : lookupNode fs src =
              some (Node.dir ((done ++ [(k, Node.dir ces)]) ++ rest2)) := by
            simpa using hsrc
          have hwf2 : wfL ((done ++ [(k, Node.dir ces)]) ++ rest2) = true := by
            simpa using hwf
          have hbs3 : pathBytes src + weightL rest2 ≤ maxp :=
            Nat.le_trans (Nat.add_le_add_left (weightL_tail k _ rest2) _) hbs
          have hbd3 : pathBytes dst + weightL rest2 ≤ maxp :=
            Nat.le_trans (Nat.add_le_add_left (weightL_tail k _ rest2) _) hbd
          have hdepth3 : depthL rest2 ≤ fuel :=
            Nat.le_trans (depthL_tail k _ rest2) hdepth
          exact hrec (Node.dir ces)
            (ih (done ++ [(k, Node.dir ces)]) fs src dst hsrc2 hdst hcf hwf2 hdiv
              hbs3 hbd3 hdepth3)

/-- On a fresh destination whose parent chain is creatable, disjoint
from the (well-formed) source directory, and within the fuel and
path-length budgets, `copy_dir_recursive` succeeds and the result is
exactly the filesystem with the source subtree written at the
destination. -/
theorem cdr_fresh (maxp : Nat) : ∀ (fuel : Nat) (fs : Node) (src dst : Path)
    (es : List (String × Node)),
    lookupNode fs src = some (Node.dir es) → lookupNode fs dst = none →
    chainFree fs dst = true → wfL es = true → Divergent src dst →
    pathBytes src + weightL es ≤ maxp → pathBytes dst + weightL es ≤ maxp →
    depthL es + 1 ≤ fuel →
    copy_dir_recursive maxp fuel fs src dst = (true, writeAt fs dst (Node.dir es)) := by
  intro fuel
  induction fuel with
  | zero =>
      intro fs src dst es _ _ _ _ _ _ _ hdepth
      omega
  | succ fuel ih =>
      intro fs src dst es hsrc hdst hcf hwf hdiv hbs hbd hdepth
      simp only [copy_dir_recursive]
      have hex : existsAt fs src = true := by
        unfold existsAt
        rw [hsrc]
        rfl
      rw [if_pos hex]
      have hca : createDirAll maxp fs dst = some (writeAt fs dst (Node.dir [])) := by
        unfold createDirAll
        rw [if_pos (Nat.le_trans (Nat.le_add_right _ _) hbd)]
        exact createDirAllGo_fresh hdst hcf
      simp only [hca]
      have hsrc1 : lookupNode (writeAt fs dst (Node.dir [])) src = some (Node.dir es) := by
        rw [lookupNode_writeAt_divergent _ _ _ _ hdiv.symm]
        exact hsrc
      simp only [hsrc1]
      have := cdr_fresh_entries_aux maxp fuel ih es [] fs src dst (by simpa using hsrc)
        hdst hcf (by simpa using hwf) hdiv hbs hbd (by omega)
      simpa using this

theorem not_prefix_append_singleton (p : Path) (b : String) : ¬ (p ++ [b]) <+: p := by
  intro hc
  have := hc.length_le
  simp at this

/-- Behaviour of the rollback binary loop: it succeeds, writes only the
production binary slots, and leaves each production binary equal to its
backup when a backup is present and untouched otherwise. -/
theorem restoreBinList_spec (maxp : Nat) : ∀ (bs : List String) (fs : Node)
    (binsB instDir : Path),
    bs.Nodup →
    isDirAt fs instDir = true →
    Divergent instDir binsB →
    (∀ b ∈ bs, pathBytes (binsB ++ [b]) ≤ maxp ∧ pathBytes (instDir ++ [b]) ≤ maxp) →
    (∀ b ∈ bs, isDirAt fs (binsB ++ [b]) = false ∧ isDirAt fs (instDir ++ [b]) = false) →
    (restoreBinList maxp fs binsB instDir bs).1 = true ∧
    (∀ q, (∀ b ∈ bs, Divergent q (instDir ++ [b])) →
      lookupNode (restoreBinList maxp fs binsB instDir bs).2 q = lookupNode fs q) ∧
    (∀ b ∈ bs, lookupNode (restoreBinList maxp fs binsB instDir bs).2 (instDir ++ [b]) =
      (match lookupNode fs (binsB ++ [b]) with
       | some (Node.file d) => some (Node.file d)
       | _ => lookupNode fs (instDir ++ [b]))) ∧
    isDirAt (restoreBinList maxp fs binsB instDir bs).2 instDir = true := by
  intro bs
  induction bs with
  | nil =>
      intro fs binsB instDir _ hroot _ _ _
      refine ⟨by simp [restoreBinList], ?_, ?_, ?_⟩
      · intro q _; simp [restoreBinList]
      · intro b hb; simp at hb
      · simp only [restoreBinList]; exact hroot
  | cons b rest ih =>
      intro fs binsB instDir hnodup hroot hdivbi hbytes hslots
      have hbnot : b ∉ rest := (List.nodup_cons.mp hnodup).1
      have hnodup2 : rest.Nodup := (List.nodup_cons.mp hnodup).2
      have hdb : Divergent (binsB ++ [b]) (instDir ++ [b]) :=
        ((hdivbi.symm.append_right [b]).append_left [b])
      simp only [restoreBinList]
      cases hex : existsAt fs (binsB ++ [b])
      · have hbl : lookupNode fs (binsB ++ [b]) = none := by
          unfold existsAt at hex
          exact Option.not_isSome_iff_eq_none.mp (by simp [hex])
        rw [if_neg (by simp)]
        obtain ⟨ih1, ih2, ih3, ih4⟩ := ih fs binsB instDir hnodup2 hroot hdivbi
          (fun b2 hb2 => hbytes b2 (List.mem_cons_of_mem b hb2))
          (fun b2 hb2 => hslots b2 (List.mem_cons_of_mem b hb2))
        refine ⟨ih1, ?_, ?_, ih4⟩
        · intro q hq
          exact ih2 q (fun b2 hb2 => hq b2 (List.mem_cons_of_mem b hb2))
        · intro b2 hb2
          rcases List.mem_cons.mp hb2 with rfl | hb2r
          · rw [ih2 (instDir ++ [b2]) (fun b3 hb3 =>
              divergent_append_singleton (fun hh => hbnot (hh ▸ hb3)))]
            rw [hbl]
          · exact ih3 b2 hb2r
      · have hbl : ∃ d, lookupNode fs (binsB ++ [b]) = some (Node.file d) := by
          have hnd := (hslots b (List.mem_cons_self b rest)).1
          unfold existsAt at hex
          unfold isDirAt at hnd
          rcases hl : lookupNode fs (binsB ++ [b]) with _ | n
          · rw [hl] at hex; simp at hex
          · rw [hl] at hnd
            cases n with
            | dir ds => simp at hnd
            | file d => exact ⟨d, rfl⟩
        obtain ⟨d, hbl⟩ := hbl
        rw [if_pos rfl]
        -- the (possibly trivial) removal of the current production binary
        have hstep : ∃ fsa, (if existsAt fs (instDir ++ [b]) then
              removeFile fs (instDir ++ [b]) else some fs) = some fsa ∧
            lookupNode fsa (binsB ++ [b]) = some (Node.file d) ∧
            isDirAt fsa instDir = true ∧
            lookupNode fsa (instDir ++ [b]) = none ∧
            (∀ q, Divergent q (instDir ++ [b]) → lookupNode fsa q = lookupNode fs q) := by
          cases hexi : existsAt fs (instDir ++ [b])
          · have hil : lookupNode fs (instDir ++ [b]) = none := by
              unfold existsAt at hexi
              exact Option.not_isSome_iff_eq_none.mp (by simp [hexi])
            refine ⟨fs, by rw [if_neg (by simp)], hbl, hroot, hil, ?_⟩
            intro q _; rfl
          · have hil : ∃ d0, lookupNode fs (instDir ++ [b]) = some (Node.file d0) := by
              have hnd := (hslots b (List.mem_cons_self b rest)).2
              unfold existsAt at hexi
              unfold isDirAt at hnd
              rcases hl : lookupNode fs (instDir ++ [b]) with _ | n
              · rw [hl] at hexi; simp at hexi
              · rw [hl] at hnd
                cases n with
                | dir ds => simp at hnd
                | file d0 => exact ⟨d0, rfl⟩
            obtain ⟨d0, hil⟩ := hil
            refine ⟨eraseNode fs (instDir ++ [b]),
              by rw [if_pos rfl]; exact removeFile_eq hil (by simp), ?_, ?_, ?_, ?_⟩
            · rw [lookupNode_eraseNode_divergent hdb.symm]
              exact hbl
            · exact isDirAt_eraseNode_of_not_prefix hroot
                (not_prefix_append_singleton instDir b)
            · exact lookupNode_eraseNode_self (by simp) fs
            · intro q hqd
              exact lookupNode_eraseNode_divergent hqd.symm
        obtain ⟨fsa, hfsa, hfsa_bl, hfsa_root, hfsa_slot, hfsa_frame⟩ := hstep
        simp only [hfsa]
        have hcw : canWriteFile fsa (instDir ++ [b]) = true := by
          apply canWriteFile_fresh
          · exact hfsa_root
          · unfold isDirAt
            rw [hfsa_slot]
        have hcf : copyFile maxp fsa (binsB ++ [b]) (instDir ++ [b]) =
            some (writeAt fsa (instDir ++ [b]) (Node.file d)) := by
          unfold copyFile
          rw [if_pos ⟨(hbytes b (List.mem_cons_self b rest)).1,
            (hbytes b (List.mem_cons_self b rest)).2⟩]
          simp only [hfsa_bl]
          rw [writeFileAt_eq, if_pos hcw]
        simp only [hcf]
        set fsb := writeAt fsa (instDir ++ [b]) (Node.file d) with hfsb
        have hfsb_frame : ∀ q, Divergent q (instDir ++ [b]) →
            lookupNode fsb q = lookupNode fs q := by
          intro q hqd
          rw [hfsb, lookupNode_writeAt_divergent _ _ _ _ hqd.symm]
          exact hfsa_frame q hqd
        have hfsb_isdir : ∀ q, Divergent q (instDir ++ [b]) →
            isDirAt fsb q = isDirAt fs q := by
          intro q hqd
          unfold isDirAt
          rw [hfsb_frame q hqd]
        have hroot2 : isDirAt fsb instDir = true := by
          rw [hfsb]
          exact isDirAt_writeAt_of_not_prefix hfsa_root
            (not_prefix_append_singleton instDir b)
        have hslots2 : ∀ b2 ∈ rest, isDirAt fsb (binsB ++ [b2]) = false ∧
            isDirAt fsb (instDir ++ [b2]) = false := by
          intro b2 hb2
          have hne : b ≠ b2 := fun hh => hbnot (hh ▸ hb2)
          constructor
          · rw [hfsb_isdir _ ((hdivbi.symm.append_right [b]).append_left [b2])]
            exact (hslots b2 (List.mem_cons_of_mem b hb2)).1
          · rw [hfsb_isdir _ (divergent_append_singleton (Ne.symm hne))]
            exact (hslots b2 (List.mem_cons_of_mem b hb2)).2
        obtain ⟨ih1, ih2, ih3, ih4⟩ := ih fsb binsB instDir hnodup2 hroot2 hdivbi
          (fun b2 hb2 => hbytes b2 (List.mem_cons_of_mem b hb2)) hslots2
        refine ⟨ih1, ?_, ?_, ih4⟩
        · intro q hq
          rw [ih2 q (fun b2 hb2 => hq b2 (List.mem_cons_of_mem b hb2))]
          exact hfsb_frame q (hq b (List.mem_cons_self b rest))
        · intro b2 hb2
          rcases List.mem_cons.mp hb2 with rfl | hb2r
          · rw [ih2 (instDir ++ [b2]) (fun b3 hb3 =>
              divergent_append_singleton (fun hh => hbnot (hh ▸ hb3)))]
            rw [hfsb, lookupNode_writeAt_self, hbl]
          · rw [ih3 b2 hb2r]
            have hne : b ≠ b2 := fun hh => hbnot (hh ▸ hb2r)
            rw [hfsb_frame (binsB ++ [b2])
              ((hdivbi.symm.append_right [b]).append_left [b2])]
            rw [hfsb_frame (instDir ++ [b2])
              (divergent_append_singleton (Ne.symm hne))]

theorem not_prefix_of_strict_prefix {r p : Path} (hr : r <+: p) (hne : r ≠ p) :
    ¬ p <+: r := by
  intro hc
  exact hne (hr.eq_of_length (Nat.le_antisymm hr.length_le hc.length_le))

/-- The state-restoration block of `perform_rollback` when the snapshot
lives inside `<state_dir>/snapshots` (the layout `create_snapshot`
would produce): the current snapshots subtree is copied aside to the
tempdir, the state directory is deleted — destroying the backup before
it can be copied back, so that copy silently does nothing — and then
the preserved snapshots subtree is restored into an otherwise empty
state directory. -/
theorem restore_state_dir_under (maxp fuel : Nat) (fs : Node) (kh temp t : Path)
    (s0 : List (String × Node))
    (hs0 : lookupNode fs (kh ++ ["snapshots"]) = some (Node.dir s0))
    (hbk : existsAt fs (((kh ++ ["snapshots"]) ++ t) ++ ["kernelle_home"]) = true)
    (hkh_ne : kh ≠ [])
    (htemp_fresh : lookupNode fs temp = none)
    (htemp_chain : chainDirsB fs temp = true)
    (htemp_div : Divergent temp kh)
    (hwf : wfL s0 = true)
    (hb1 : pathBytes (temp ++ ["snapshots"]) + weightL s0 ≤ maxp)
    (hb2 : pathBytes (kh ++ ["snapshots"]) + weightL s0 ≤ maxp)
    (hdep : depthL s0 + 1 ≤ fuel) :
    restore_state_dir maxp fuel fs ((kh ++ ["snapshots"]) ++ t) kh temp =
      (true,
        writeAt (eraseNode (writeAt (writeAt fs temp (Node.dir []))
            (temp ++ ["snapshots"]) (Node.dir s0)) kh)
          (kh ++ ["snapshots"]) (Node.dir s0)) := by
  obtain ⟨f, rfl⟩ : ∃ f, fuel = f + 1 := ⟨fuel - 1, by omega⟩
  obtain ⟨khn, hkh, hkhsub⟩ := lookup_some_of_append hs0
  obtain ⟨khes, rfl⟩ : ∃ khes, khn = Node.dir khes := by
    cases khn with
    | file d => simp [lookupNode] at hkhsub
    | dir es => exact ⟨es, rfl⟩
  simp only [restore_state_dir]
  rw [if_pos hbk]
  have hcaA : createDirAll maxp fs temp = some (writeAt fs temp (Node.dir [])) := by
    unfold createDirAll
    rw [if_pos (by
      have := pathBytes_append temp ["snapshots"]
      omega)]
    exact createDirAllGo_fresh htemp_fresh
      (chainFree_of_prefix_dirs (chainDirsB_spec htemp_chain) htemp_fresh)
  simp only [hcaA]
  set fsA := writeAt fs temp (Node.dir []) with hfsA
  have hA_s0 : lookupNode fsA (kh ++ ["snapshots"]) = some (Node.dir s0) := by
    rw [hfsA, lookupNode_writeAt_divergent _ _ _ _ (htemp_div.append_right ["snapshots"])]
    exact hs0
  have hA_ex : existsAt fsA (kh ++ ["snapshots"]) = true := by
    unfold existsAt
    rw [hA_s0]
    rfl
  rw [if_pos hA_ex]
  have hstep1 : copy_dir_recursive maxp (f + 1) fsA (kh ++ ["snapshots"])
      (temp ++ ["snapshots"]) =
      (true, writeAt fsA (temp ++ ["snapshots"]) (Node.dir s0)) := by
    apply cdr_fresh
    · exact hA_s0
    · rw [hfsA, lookupNode_writeAt_append]
      simp [lookupNode, findEntry]
    · apply chainFree_of_prefix_dirs
      · intro r hr hne
        by_cases hrt : r = temp
        · subst hrt
          rw [hfsA]
          unfold isDirAt
          rw [lookupNode_writeAt_self]
        · exact isDirAt_writeAt_strict_prefix _ (prefix_concat hr hne) hrt
      · rw [hfsA, lookupNode_writeAt_append]
        simp [lookupNode, findEntry]
    · exact hwf
    · exact (htemp_div.symm.append_right ["snapshots"]).append_left ["snapshots"]
    · exact hb2
    · exact hb1
    · exact hdep
  simp only [hstep1]
  set fs1 := writeAt fsA (temp ++ ["snapshots"]) (Node.dir s0) with hfs1
  have h1_kh : lookupNode fs1 kh = some (Node.dir khes) := by
    rw [hfs1, lookupNode_writeAt_divergent _ _ _ _ (htemp_div.append_left ["snapshots"]),
      hfsA, lookupNode_writeAt_divergent _ _ _ _ htemp_div]
    exact hkh
  have h1_ex : existsAt fs1 kh = true := by
    unfold existsAt
    rw [h1_kh]
    rfl
  rw [if_pos h1_ex]
  simp only [removeDirAll_eq h1_kh hkh_ne]
  have h2_bk : existsAt (eraseNode fs1 kh)
      (((kh ++ ["snapshots"]) ++ t) ++ ["kernelle_home"]) = false := by
    have hre : ((kh ++ ["snapshots"]) ++ t) ++ ["kernelle_home"] =
        kh ++ (["snapshots"] ++ t ++ ["kernelle_home"]) := by simp
    rw [hre, existsAt, lookupNode_eraseNode_append hkh_ne]
    rfl
  simp only [cdr_noop maxp f (eraseNode fs1 kh) _ kh h2_bk]
  have h2_sn : lookupNode (eraseNode fs1 kh) (kh ++ ["snapshots"]) = none :=
    lookupNode_eraseNode_append hkh_ne fs1 ["snapshots"]
  rw [if_neg (by simp [existsAt, h2_sn])]
  have hstep2 : copy_dir_recursive maxp (f + 1) (eraseNode fs1 kh) (temp ++ ["snapshots"])
      (kh ++ ["snapshots"]) =
      (true, writeAt (eraseNode fs1 kh) (kh ++ ["snapshots"]) (Node.dir s0)) := by
    apply cdr_fresh
    · rw [lookupNode_eraseNode_divergent (htemp_div.symm.append_right ["snapshots"]),
        hfs1, lookupNode_writeAt_self]
    · exact h2_sn
    · apply chainFree_append
      · apply chainFree_of_prefix_dirs
        · intro r hr hne
          exact isDirAt_eraseNode_of_not_prefix
            (prefix_dirs_of_lookup_some h1_kh r hr hne)
            ( not_prefix_of_strict_prefix hr hne)
        · exact lookupNode_eraseNode_self hkh_ne fs1
      · exact lookupNode_eraseNode_self hkh_ne fs1
    · exact hwf
    · exact (htemp_div.append_right ["snapshots"]).append_left ["snapshots"]
    · exact hb1
    · exact hb2
    · exact hdep
  simp only [hstep2]

/-- The state-restoration block of `perform_rollback` for a snapshot
stored outside the state directory, when the state directory currently
has a snapshots subtree: the run succeeds and the snapshots subtree is
restored intact from the tempdir copy. -/
theorem restore_state_dir_div_some (maxp fuel : Nat) (fs : Node) (kh temp snap : Path)
    (bes khes s0 : List (String × Node))
    (hdiv_snap : Divergent snap kh)
    (hbk : lookupNode fs (snap ++ ["kernelle_home"]) = some (Node.dir bes))
    (hkh : lookupNode fs kh = some (Node.dir khes))
    (hkh_ne : kh ≠ [])
    (htemp_fresh : lookupNode fs temp = none)
    (htemp_chain : chainDirsB fs temp = true)
    (htemp_div : Divergent temp kh)
    (htemp_div_snap : Divergent temp snap)
    (hS0 : lookupNode fs (kh ++ ["snapshots"]) = some (Node.dir s0))
    (hwf0 : wfL s0 = true)
    (hwfb : wfL bes = true)
    (hbsn : (match findEntry bes "snapshots" with
             | some (Node.file _) => false
             | _ => true) = true)
    (hb1 : pathBytes (temp ++ ["snapshots"]) + weightL s0 ≤ maxp)
    (hb2 : pathBytes (kh ++ ["snapshots"]) + weightL s0 ≤ maxp)
    (hdep0 : depthL s0 + 1 ≤ fuel)
    (hbb1 : pathBytes (snap ++ ["kernelle_home"]) + weightL bes ≤ maxp)
    (hbb2 : pathBytes kh + weightL bes ≤ maxp)
    (hdepb : depthL bes + 1 ≤ fuel) :
    (restore_state_dir maxp fuel fs snap kh temp).1 = true ∧
      lookupNode (restore_state_dir maxp fuel fs snap kh temp).2 (kh ++ ["snapshots"]) =
        some (Node.dir s0) := by
  obtain ⟨f, rfl⟩ : ∃ f, fuel = f + 1 := ⟨fuel - 1, by omega⟩
  simp only [restore_state_dir]
  rw [if_pos (by simp [existsAt, hbk])]
  have hcaA : createDirAll maxp fs temp = some (writeAt fs temp (Node.dir [])) := by
    unfold createDirAll
    rw [if_pos (by
      have := pathBytes_append temp ["snapshots"]
      omega)]
    exact createDirAllGo_fresh htemp_fresh
      (chainFree_of_prefix_dirs (chainDirsB_spec htemp_chain) htemp_fresh)
  simp only [hcaA]
  have hA_s0 : lookupNode (writeAt fs temp (Node.dir [])) (kh ++ ["snapshots"]) =
      some (Node.dir s0) := by
    rw [lookupNode_writeAt_divergent _ _ _ _ (htemp_div.append_right ["snapshots"])]
    exact hS0
  rw [if_pos (by simp [existsAt, hA_s0])]
  have hstep1 : copy_dir_recursive maxp (f + 1) (writeAt fs temp (Node.dir []))
      (kh ++ ["snapshots"]) (temp ++ ["snapshots"]) =
      (true, writeAt (writeAt fs temp (Node.dir [])) (temp ++ ["snapshots"])
        (Node.dir s0)) := by
    apply cdr_fresh
    · exact hA_s0
    · rw [lookupNode_writeAt_append]
      simp [lookupNode, findEntry]
    · apply chainFree_of_prefix_dirs
      · intro r hr hne
        by_cases hrt : r = temp
        · subst hrt
          unfold isDirAt
          rw [lookupNode_writeAt_self]
        · exact isDirAt_writeAt_strict_prefix _ (prefix_concat hr hne) hrt
      · rw [lookupNode_writeAt_append]
        simp [lookupNode, findEntry]
    · exact hwf0
    · exact (htemp_div.symm.append_right ["snapshots"]).append_left ["snapshots"]
    · exact hb2
    · exact hb1
    · exact hdep0
  simp only [hstep1]
  set fs1 := writeAt (writeAt fs temp (Node.dir [])) (temp ++ ["snapshots"])
    (Node.dir s0) with hfs1
  have hfr1 : ∀ q, Divergent temp q → lookupNode fs1 q = lookupNode fs q := by
    intro q hq
    rw [hfs1, lookupNode_writeAt_divergent _ _ _ _ (hq.append_left ["snapshots"]),
      lookupNode_writeAt_divergent _ _ _ _ hq]
  have h1_kh : lookupNode fs1 kh = some (Node.dir khes) := by
    rw [hfr1 kh htemp_div]
    exact hkh
  rw [if_pos (by simp [existsAt, h1_kh])]
  simp only [removeDirAll_eq h1_kh hkh_ne]
  have h2_bk : lookupNode (eraseNode fs1 kh) (snap ++ ["kernelle_home"]) =
      some (Node.dir bes) := by
    rw [lookupNode_eraseNode_divergent
      (hdiv_snap.symm.append_right ["kernelle_home"])]
    rw [hfr1 _ (htemp_div_snap.append_right ["kernelle_home"])]
    exact hbk
  have hstep2 : copy_dir_recursive maxp (f + 1) (eraseNode fs1 kh)
      (snap ++ ["kernelle_home"]) kh =
      (true, writeAt (eraseNode fs1 kh) kh (Node.dir bes)) := by
    apply cdr_fresh
    · exact h2_bk
    · exact lookupNode_eraseNode_self hkh_ne fs1
    · apply chainFree_of_prefix_dirs
      · intro r hr hne
        exact isDirAt_eraseNode_of_not_prefix
          (prefix_dirs_of_lookup_some h1_kh r hr hne)
          ( not_prefix_of_strict_prefix hr hne)
      · exact lookupNode_eraseNode_self hkh_ne fs1
    · exact hwfb
    · exact hdiv_snap.append_left ["kernelle_home"]
    · exact hbb1
    · exact hbb2
    · exact hdepb
  simp only [hstep2]
  set fs3 := writeAt (eraseNode fs1 kh) kh (Node.dir bes) with hfs3
  have h3_sn : lookupNode fs3 (kh ++ ["snapshots"]) = findEntry bes "snapshots" := by
    rw [hfs3, lookupNode_writeAt_append, lookupNode_singleton]
  have h3_kh_dir : isDirAt fs3 kh = true := by
    unfold isDirAt
    rw [hfs3, lookupNode_writeAt_self]
  have h3_src : lookupNode fs3 (temp ++ ["snapshots"]) = some (Node.dir s0) := by
    rw [hfs3, lookupNode_writeAt_divergent _ _ _ _ (htemp_div.append_left ["snapshots"]).symm,
      lookupNode_eraseNode_divergent (htemp_div.symm.append_right ["snapshots"]),
      hfs1, lookupNode_writeAt_self]
  have h3_chain : ∀ r, r <+: kh ++ ["snapshots"] → r ≠ kh ++ ["snapshots"] →
      isDirAt fs3 r = true := by
    intro r hr hne
    by_cases hrk : r = kh
    · subst hrk
      exact h3_kh_dir
    · have hrk2 : r <+: kh := prefix_concat hr hne
      rw [hfs3]
      apply isDirAt_writeAt_strict_prefix _ hrk2 hrk
  cases hfe : findEntry bes "snapshots" with
  | none =>
      rw [if_neg (by simp [existsAt, h3_sn, hfe])]
      have hstep3 : copy_dir_recursive maxp (f + 1) fs3 (temp ++ ["snapshots"])
          (kh ++ ["snapshots"]) =
          (true, writeAt fs3 (kh ++ ["snapshots"]) (Node.dir s0)) := by
        apply cdr_fresh
        · exact h3_src
        · rw [h3_sn, hfe]
        · exact chainFree_of_prefix_dirs h3_chain (by rw [h3_sn, hfe])
        · exact hwf0
        · exact (htemp_div.append_right ["snapshots"]).append_left ["snapshots"]
        · exact hb1
        · exact hb2
        · exact hdep0
      simp only [hstep3]
      exact ⟨by simp, by simp [lookupNode_writeAt_self]⟩
  | some bn =>
      obtain ⟨ds, rfl⟩ : ∃ ds, bn = Node.dir ds := by
        cases bn with
        | file d => rw [hfe] at hbsn; simp at hbsn
        | dir ds => exact ⟨ds, rfl⟩
      have h3_sn2 : lookupNode fs3 (kh ++ ["snapshots"]) = some (Node.dir ds) := by
        rw [h3_sn, hfe]
      rw [if_pos (by simp [existsAt, h3_sn2])]
      simp only [removeDirAll_eq h3_sn2 (by simp)]
      have h4_sn : lookupNode (eraseNode fs3 (kh ++ ["snapshots"])) (kh ++ ["snapshots"])
          = none := lookupNode_eraseNode_self (by simp) fs3
      have hstep3 : copy_dir_recursive maxp (f + 1) (eraseNode fs3 (kh ++ ["snapshots"]))
          (temp ++ ["snapshots"]) (kh ++ ["snapshots"]) =
          (true, writeAt (eraseNode fs3 (kh ++ ["snapshots"])) (kh ++ ["snapshots"])
            (Node.dir s0)) := by
        apply cdr_fresh
        · rw [lookupNode_eraseNode_divergent
            ((htemp_div.symm.append_right ["snapshots"]).append_left ["snapshots"])]
          exact h3_src
        · exact h4_sn
        · apply chainFree_of_prefix_dirs
          · intro r hr hne
            exact isDirAt_eraseNode_of_not_prefix (h3_chain r hr hne)
              ( not_prefix_of_strict_prefix hr hne)
          · exact h4_sn
        · exact hwf0
        · exact (htemp_div.append_right ["snapshots"]).append_left ["snapshots"]
        · exact hb1
        · exact hb2
        · exact hdep0
      simp only [hstep3]
      exact ⟨by simp, by simp [lookupNode_writeAt_self]⟩

/-- The state-restoration block of `perform_rollback` for a snapshot
stored outside the state directory, when the state directory has no
snapshots subtree: the run succeeds and afterwards the state directory
still has no snapshots subtree — even one brought in by the backup is
removed, because only the (nonexistent) pre-rollback snapshots subtree
is restored. -/
theorem restore_state_dir_div_none (maxp fuel : Nat) (fs : Node) (kh temp snap : Path)
    (bes khes : List (String × Node))
    (hdiv_snap : Divergent snap kh)
    (hbk : lookupNode fs (snap ++ ["kernelle_home"]) = some (Node.dir bes))
    (hkh : lookupNode fs kh = some (Node.dir khes))
    (hkh_ne : kh ≠ [])
    (htemp_fresh : lookupNode fs temp = none)
    (htemp_chain : chainDirsB fs temp = true)
    (htemp_div : Divergent temp kh)
    (htemp_div_snap : Divergent temp snap)
    (hS0 : lookupNode fs (kh ++ ["snapshots"]) = none)
    (hwfb : wfL bes = true)
    (hbsn : (match findEntry bes "snapshots" with
             | some (Node.file _) => false
             | _ => true) = true)
    (hbb1 : pathBytes (snap ++ ["kernelle_home"]) + weightL bes ≤ maxp)
    (hbb2 : pathBytes kh + weightL bes ≤ maxp)
    (hbt : pathBytes temp + 10 ≤ maxp)
    (hdepb : depthL bes + 1 ≤ fuel) :
    (restore_state_dir maxp fuel fs snap kh temp).1 = true ∧
      lookupNode (restore_state_dir maxp fuel fs snap kh temp).2 (kh ++ ["snapshots"]) =
        none := by
  obtain ⟨f, rfl⟩ : ∃ f, fuel = f + 1 := ⟨fuel - 1, by omega⟩
  simp only [restore_state_dir]
  rw [if_pos (by simp [existsAt, hbk])]
  have hcaA : createDirAll maxp fs temp = some (writeAt fs temp (Node.dir [])) := by
    unfold createDirAll
    rw [if_pos (by omega)]
    exact createDirAllGo_fresh htemp_fresh
      (chainFree_of_prefix_dirs (chainDirsB_spec htemp_chain) htemp_fresh)
  simp only [hcaA]
  set fsA := writeAt fs temp (Node.dir []) with hfsA
  have hA_fr : ∀ q, Divergent temp q → lookupNode fsA q = lookupNode fs q := by
    intro q hq
    rw [hfsA, lookupNode_writeAt_divergent _ _ _ _ hq]
  have hA_s0 : lookupNode fsA (kh ++ ["snapshots"]) = none := by
    rw [hA_fr _ (htemp_div.append_right ["snapshots"])]
    exact hS0
  rw [if_neg (by simp [existsAt, hA_s0])]
  simp only []
  have hA_kh : lookupNode fsA kh = some (Node.dir khes) := by
    rw [hA_fr kh htemp_div]
    exact hkh
  rw [if_pos (by simp [existsAt, hA_kh])]
  simp only [removeDirAll_eq hA_kh hkh_ne]
  have h2_bk : lookupNode (eraseNode fsA kh) (snap ++ ["kernelle_home"]) =
      some (Node.dir bes) := by
    rw [lookupNode_eraseNode_divergent
      (hdiv_snap.symm.append_right ["kernelle_home"])]
    rw [hA_fr _ (htemp_div_snap.append_right ["kernelle_home"])]
    exact hbk
  have hstep2 : copy_dir_recursive maxp (f + 1) (eraseNode fsA kh)
      (snap ++ ["kernelle_home"]) kh =
      (true, writeAt (eraseNode fsA kh) kh (Node.dir bes)) := by
    apply cdr_fresh
    · exact h2_bk
    · exact lookupNode_eraseNode_self hkh_ne fsA
    · apply chainFree_of_prefix_dirs
      · intro r hr hne
        exact isDirAt_eraseNode_of_not_prefix
          (prefix_dirs_of_lookup_some hA_kh r hr hne)
          ( not_prefix_of_strict_prefix hr hne)
      · exact lookupNode_eraseNode_self hkh_ne fsA
    · exact hwfb
    · exact hdiv_snap.append_left ["kernelle_home"]
    · exact hbb1
    · exact hbb2
    · exact hdepb
  simp only [hstep2]
  set fs3 := writeAt (eraseNode fsA kh) kh (Node.dir bes) with hfs3
  have h3_sn : lookupNode fs3 (kh ++ ["snapshots"]) = findEntry bes "snapshots" := by
    rw [hfs3, lookupNode_writeAt_append, lookupNode_singleton]
  have h3_src : lookupNode fs3 (temp ++ ["snapshots"]) = none := by
    rw [hfs3, lookupNode_writeAt_divergent _ _ _ _ (htemp_div.append_left ["snapshots"]).symm,
      lookupNode_eraseNode_divergent (htemp_div.symm.append_right ["snapshots"]),
      hfsA, lookupNode_writeAt_append]
    simp [lookupNode, findEntry]
  cases hfe : findEntry bes "snapshots" with
  | none =>
      rw [if_neg (by simp [existsAt, h3_sn, hfe])]
      simp only []
      rw [cdr_noop maxp f fs3 _ _ (by simp [existsAt, h3_src])]
      exact ⟨rfl, by rw [h3_sn, hfe]⟩
  | some bn =>
      obtain ⟨ds, rfl⟩ : ∃ ds, bn = Node.dir ds := by
        cases bn with
        | file d => rw [hfe] at hbsn; simp at hbsn
        | dir ds => exact ⟨ds, rfl⟩
      have h3_sn2 : lookupNode fs3 (kh ++ ["snapshots"]) = some (Node.dir ds) := by
        rw [h3_sn, hfe]
      rw [if_pos (by simp [existsAt, h3_sn2])]
      simp only [removeDirAll_eq h3_sn2 (by simp)]
      have h4_src : lookupNode (eraseNode fs3 (kh ++ ["snapshots"]))
          (temp ++ ["snapshots"]) = none := by
        rw [lookupNode_eraseNode_divergent
          ((htemp_div.symm.append_right ["snapshots"]).append_left ["snapshots"])]
        exact h3_src
      rw [cdr_noop maxp f _ _ _ (by simp [existsAt, h4_src])]
      exact ⟨rfl, lookupNode_eraseNode_self (by simp) fs3⟩

/-- `create_snapshot` can never succeed: after it creates
`<state_dir>/snapshots/pre_update_<ts>`, the recursive copy of the
state directory targets a destination strictly inside that source, so
the copy always fails (in the real system, with an I/O error after an
unbounded descent), whatever the state of the filesystem. -/
theorem create_snapshot_fails (maxp fuel : Nat) (ts : String) (fs : Node)
    (kernelle_home install_dir : Path) :
    (create_snapshot maxp fuel ts fs kernelle_home install_dir).1 = none := by
  simp only [create_snapshot]
  cases hca1 : createDirAll maxp fs (kernelle_home ++ ["snapshots"]) with
  | none => rfl
  | some fs1 =>
      cases hca2 : createDirAll maxp fs1
          ((kernelle_home ++ ["snapshots"]) ++ ["pre_update_" ++ ts]) with
      | none =>
          have hca2b : createDirAll maxp fs1
              (kernelle_home ++ ["snapshots", "pre_update_" ++ ts]) = none := by
            simpa using hca2
          simp [hca2b]
      | some fs2 =>
          simp only [hca2]
          have hgo1 := (createDirAll_some hca1).1
          have hgo2 := (createDirAll_some hca2).1
          have hd1 : isDirAt fs1 (kernelle_home ++ ["snapshots"]) = true :=
            createDirAllGo_isDir hgo1
          have hd2 : isDirAt fs2
              ((kernelle_home ++ ["snapshots"]) ++ ["pre_update_" ++ ts]) = true :=
            createDirAllGo_isDir hgo2
          have hd1' : isDirAt fs2 (kernelle_home ++ ["snapshots"]) = true :=
            createDirAllGo_mono hgo2 hd1
          have hd0 : isDirAt fs2 kernelle_home = true :=
            isDirAt_prefix hd1'
          have hinv : ∀ r, r <+: ["snapshots", "pre_update_" ++ ts, "kernelle_home"] →
              r ≠ ["snapshots", "pre_update_" ++ ts, "kernelle_home"] →
              isDirAt fs2 (kernelle_home ++ r) = true := by
            intro r0 hr0 hne
            rcases r0 with _ | ⟨x, r1⟩
            · simpa using hd0
            · obtain ⟨hx, hr1⟩ := List.cons_prefix_cons.mp hr0
              subst hx
              rcases r1 with _ | ⟨y, r2⟩
              · simpa using hd1'
              · obtain ⟨hy, hr2⟩ := List.cons_prefix_cons.mp hr1
                subst hy
                rcases r2 with _ | ⟨z, r3⟩
                · have heq : (kernelle_home ++ ["snapshots"]) ++ ["pre_update_" ++ ts] =
                      kernelle_home ++ ["snapshots", "pre_update_" ++ ts] := by simp
                  rw [heq] at hd2
                  simpa using hd2
                · obtain ⟨hz, hr3⟩ := List.cons_prefix_cons.mp hr2
                  subst hz
                  have hr4 : r3 = [] := List.prefix_nil.mp hr3
                  subst hr4
                  exact absurd rfl hne
          have hd := cdr_descend maxp fuel fs2 kernelle_home
            ["snapshots", "pre_update_" ++ ts, "kernelle_home"] (by simp) hinv
          have hpath : ((kernelle_home ++ ["snapshots"]) ++ ["pre_update_" ++ ts])
              ++ ["kernelle_home"]
              = kernelle_home ++ ["snapshots", "pre_update_" ++ ts, "kernelle_home"] := by
            simp
          rw [hpath]
          rcases hc : copy_dir_recursive maxp fuel fs2 kernelle_home
              (kernelle_home ++ ["snapshots", "pre_update_" ++ ts, "kernelle_home"])
            with ⟨b, fs3⟩
          rw [hc] at hd
          cases b
          · rfl
          · simp at hd

theorem existsAt_of_append {fs : Node} {p q : Path} (h : existsAt fs (p ++ q) = true) :
    existsAt fs p = true := by
  unfold existsAt at h ⊢
  rw [lookupNode_append] at h
  cases hm : lookupNode fs p with
  | none => rw [hm] at h; simp at h
  | some m => simp

theorem isDirAt_eq_of_lookup_eq {fs1 fs2 : Node} {p q : Path}
    (h : lookupNode fs1 p = lookupNode fs2 q) : isDirAt fs1 p = isDirAt fs2 q := by
  unfold isDirAt
  rw [h]

theorem existsAt_eq_of_lookup_eq {fs1 fs2 : Node} {p q : Path}
    (h : lookupNode fs1 p = lookupNode fs2 q) : existsAt fs1 p = existsAt fs2 q := by
  unfold existsAt
  rw [h]

theorem divergent_assoc_left {a b : Path} (r s : Path) (h : Divergent a b) :
    Divergent ((a ++ r) ++ s) b := by
  have h2 := h.append_left (r ++ s)
  simpa [List.append_assoc] using h2

theorem createDirAll_frame {maxp : Nat} {fs fs' : Node} {p : Path}
    (h : createDirAll maxp fs p = some fs') {q : Path} (hd : Divergent q p) :
    lookupNode fs' q = lookupNode fs q :=
  createDirAllGo_frame (createDirAll_some h).1 hd

theorem applyTar_frame (staging : Path) : ∀ (entries : List (String × Node))
    (fs : Node) (q : Path), Divergent q staging →
    lookupNode (applyTar fs staging entries) q = lookupNode fs q := by
  intro entries
  induction entries with
  | nil => intro fs q _; rfl
  | cons e rest ih =>
      intro fs q hd
      rcases e with ⟨k, n⟩
      simp only [applyTar]
      rw [ih _ _ hd, lookupNode_writeAt_divergent _ _ _ _ (hd.symm.append_left [k])]

theorem dae_frame (maxp : Nat) (o : Oracle) (version : String) (fs : Node)
    (staging q : Path) (hd : Divergent q staging) :
    lookupNode (download_and_extract maxp o version fs staging).2 q =
      lookupNode fs q := by
  unfold download_and_extract
  cases hu : o.tarballURL version with
  | none => simp only [hu]
  | some url =>
      simp only [hu]
      cases hby : o.tarballBytes url with
      | none => simp only [hby]
      | some bytes =>
          simp only [hby]
          cases hw : fsWrite maxp fs (staging ++ ["kernelle.tar.gz"]) bytes with
          | none => simp only [hw]
          | some fs1 =>
              simp only [hw]
              have hw2 : writeFileAt fs (staging ++ ["kernelle.tar.gz"]) bytes =
                  some fs1 := by
                unfold fsWrite at hw
                by_cases hb : pathBytes (staging ++ ["kernelle.tar.gz"]) ≤ maxp
                · rwa [if_pos hb] at hw
                · rw [if_neg hb] at hw; exact absurd hw (by simp)
              rw [writeFileAt_eq] at hw2
              by_cases hc : canWriteFile fs (staging ++ ["kernelle.tar.gz"]) = true
              · rw [if_pos hc] at hw2
                have hfs1 : fs1 = writeAt fs (staging ++ ["kernelle.tar.gz"])
                    (Node.file bytes) := by
                  injection hw2 with h2
                  exact h2.symm
                have hfr1 : lookupNode fs1 q = lookupNode fs q := by
                  rw [hfs1]
                  exact lookupNode_writeAt_divergent _ _ _ _
                    (hd.symm.append_left ["kernelle.tar.gz"])
                cases htr : o.tarResult bytes with
                | none => simp only [htr]; exact hfr1
                | some entries =>
                    simp only [htr]
                    cases hfx : findExtracted staging
                        (dirEntries (applyTar fs1 staging entries) staging) with
                    | none =>
                        simp only [hfx]
                        rw [applyTar_frame staging entries fs1 q hd]
                        exact hfr1
                    | some name =>
                        simp only [hfx]
                        rw [applyTar_frame staging entries fs1 q hd]
                        exact hfr1
              · rw [if_neg hc] at hw2
                exact absurd hw2 (by simp)

theorem tbs_frame (o : Oracle) (fs : Node) (extracted staging binsStaging q : Path)
    (hd : Divergent q staging) :
    lookupNode (test_build_in_staging o fs extracted staging binsStaging).2 q =
      lookupNode fs q := by
  have hw : ∀ sub, lookupNode (writeAt fs staging sub) q = lookupNode fs q :=
    fun sub => lookupNode_writeAt_divergent _ _ _ _ hd.symm
  unfold test_build_in_staging
  by_cases he : existsAt fs (extracted ++ ["scripts", "install.sh"]) = true
  · rw [if_pos he]
    rcases hsi : o.stagingInstall (subtreeAt fs staging) with ⟨ok, sub⟩
    simp only [hsi]
    cases ok with
    | false =>
        rw [if_neg (by simp)]
        exact hw sub
    | true =>
        rw [if_pos rfl]
        by_cases hx : existsAt (writeAt fs staging sub) (binsStaging ++ ["kernelle"]) = true
        · rw [if_pos hx]
          by_cases hs : o.stagingSmoke (subtreeAt (writeAt fs staging sub) staging) = true
          · rw [if_pos hs]; exact hw sub
          · rw [if_neg hs]; exact hw sub
        · rw [if_neg hx]; exact hw sub
  · rw [if_neg he]

theorem iav_ok_eq (maxp fuel : Nat) (o : Oracle) (fs : Node)
    (snapshot_dir kernelle_home install_dir temp staging : Path) (fs1 : Node)
    (hrun : o.installRun fs = (true, fs1)) (hv : o.verifyOk fs1 = true) :
    install_and_verify maxp fuel o fs snapshot_dir kernelle_home install_dir temp
        staging = (Except.ok (), (removeDirAll fs1 staging).getD fs1) := by
  simp only [install_and_verify, hrun]
  rw [if_pos hv]

theorem iav_fail_eq (maxp fuel : Nat) (o : Oracle) (fs : Node)
    (snapshot_dir kernelle_home install_dir temp staging : Path) (ok : Bool)
    (fs1 : Node) (hrun : o.installRun fs = (ok, fs1))
    (hfail : ok = false ∨ o.verifyOk fs1 = false) :
    install_and_verify maxp fuel o fs snapshot_dir kernelle_home install_dir temp
        staging =
      ((match (perform_rollback maxp fuel o.verifyOk fs1 snapshot_dir kernelle_home
            install_dir temp).1 with
        | Except.ok _ => Except.error (UpdateErr.rolledBack
            (if ok then UpdateErr.verificationFailure else UpdateErr.installFailure))
        | Except.error rbe => Except.error (UpdateErr.rollbackFailed
            (if ok then UpdateErr.verificationFailure else UpdateErr.installFailure)
            rbe)),
       (perform_rollback maxp fuel o.verifyOk fs1 snapshot_dir kernelle_home
          install_dir temp).2) := by
  cases ok with
  | false =>
      simp only [install_and_verify, hrun]
      rcases hrb : perform_rollback maxp fuel o.verifyOk fs1 snapshot_dir kernelle_home
          install_dir temp with ⟨r, fs2⟩
      simp only [hrb]
      cases r with
      | ok u => simp
      | error rbe => simp
  | true =>
      have hv : o.verifyOk fs1 = false := by
        rcases hfail with h | h
        · exact absurd h (by simp)
        · exact h
      simp only [install_and_verify, hrun]
      rw [if_neg (by simp [hv])]
      rcases hrb : perform_rollback maxp fuel o.verifyOk fs1 snapshot_dir kernelle_home
          install_dir temp with ⟨r, fs2⟩
      simp only [hrb]
      cases r with
      | ok u => simp
      | error rbe => simp

theorem iav_shape (maxp fuel : Nat) (o : Oracle) (fs : Node)
    (snapshot_dir kernelle_home install_dir temp staging : Path) :
    (install_and_verify maxp fuel o fs snapshot_dir kernelle_home install_dir temp
        staging).1 = Except.ok () ∨
    (∃ e0, (install_and_verify maxp fuel o fs snapshot_dir kernelle_home install_dir
        temp staging).1 = Except.error (UpdateErr.rolledBack e0)) ∨
    (∃ e0 rbe, (install_and_verify maxp fuel o fs snapshot_dir kernelle_home
        install_dir temp staging).1 =
      Except.error (UpdateErr.rollbackFailed e0 rbe)) := by
  rcases hir : o.installRun fs with ⟨ok, fs1⟩
  have hsplit : ok = true ∧ o.verifyOk fs1 = true ∨
      (ok = false ∨ o.verifyOk fs1 = false) := by
    cases ok
    · right; left; rfl
    · cases hv : o.verifyOk fs1
      · right; right; rfl
      · left; exact ⟨rfl, rfl⟩
  rcases hsplit with ⟨hok, hv⟩ | hfail
  · subst hok
    left
    rw [iav_ok_eq maxp fuel o fs snapshot_dir kernelle_home install_dir temp staging
      fs1 hir hv]
  · cases hc : (perform_rollback maxp fuel o.verifyOk fs1 snapshot_dir kernelle_home
        install_dir temp).1 with
    | ok u =>
        right; left
        refine ⟨if ok then UpdateErr.verificationFailure else UpdateErr.installFailure,
          ?_⟩
        rw [iav_fail_eq maxp fuel o fs snapshot_dir kernelle_home install_dir temp
          staging ok fs1 hir hfail]
        simp [hc]
    | error rbe =>
        right; right
        refine ⟨if ok then UpdateErr.verificationFailure else UpdateErr.installFailure,
          rbe, ?_⟩
        rw [iav_fail_eq maxp fuel o fs snapshot_dir kernelle_home install_dir temp
          staging ok fs1 hir hfail]
        simp [hc]

theorem findExtracted_eq_head (staging : Path) : ∀ (es : List (String × Node)),
    findExtracted staging es = (matchesOf es).head? := by
  intro es
  induction es with
  | nil => rfl
  | cons e rest ih =>
      rcases e with ⟨k, n⟩
      cases n with
      | file d =>
          simpa [findExtracted, matchesOf, Node.isDirB, List.filter_cons] using ih
      | dir ds =>
          by_cases hk : strContains k "kernelle" = true
          · have hne : staging ++ [k] ≠ staging := by
              intro hh
              have hlen := congrArg List.length hh
              simp at hlen
            simp [findExtracted, matchesOf, Node.isDirB, List.filter_cons, hk, hne]
          · simpa [findExtracted, matchesOf, Node.isDirB, List.filter_cons, hk] using ih

theorem rollback_real_spec (maxp fuel : Nat) (verify : Node → Bool) (fs : Node)
    (kh temp instDir t : Path) (s0 : List (String × Node))
    (hs0 : lookupNode fs (kh ++ ["snapshots"]) = some (Node.dir s0))
    (hbk : existsAt fs (((kh ++ ["snapshots"]) ++ t) ++ ["kernelle_home"]) = true)
    (hkh_ne : kh ≠ [])
    (htemp_fresh : lookupNode fs temp = none)
    (htemp_chain : chainDirsB fs temp = true)
    (htemp_div : Divergent temp kh)
    (hwf : wfL s0 = true)
    (hb1 : pathBytes (temp ++ ["snapshots"]) + weightL s0 ≤ maxp)
    (hb2 : pathBytes (kh ++ ["snapshots"]) + weightL s0 ≤ maxp)
    (hdep : depthL s0 + 1 ≤ fuel)
    (hinst : isDirAt fs instDir = true)
    (hdiv_ik : Divergent instDir kh)
    (hdiv_it : Divergent instDir temp)
    (hbins : existsAt fs (((kh ++ ["snapshots"]) ++ t) ++ ["bins"]) = true)
    (hbytes : ∀ b ∈ binaries,
      pathBytes ((((kh ++ ["snapshots"]) ++ t) ++ ["bins"]) ++ [b]) ≤ maxp ∧
      pathBytes (instDir ++ [b]) ≤ maxp)
    (hslots : ∀ b ∈ binaries,
      isDirAt fs ((((kh ++ ["snapshots"]) ++ t) ++ ["bins"]) ++ [b]) = false ∧
      isDirAt fs (instDir ++ [b]) = false) :
    lookupNode (perform_rollback maxp fuel verify fs ((kh ++ ["snapshots"]) ++ t) kh
        instDir temp).2 kh = some (Node.dir [("snapshots", Node.dir s0)]) ∧
    (∀ r, lookupNode (perform_rollback maxp fuel verify fs ((kh ++ ["snapshots"]) ++ t)
        kh instDir temp).2 ((kh ++ ["snapshots"]) ++ r) =
      lookupNode fs ((kh ++ ["snapshots"]) ++ r)) ∧
    (∀ b ∈ binaries, lookupNode (perform_rollback maxp fuel verify fs
        ((kh ++ ["snapshots"]) ++ t) kh instDir temp).2 (instDir ++ [b]) =
      (match lookupNode fs ((((kh ++ ["snapshots"]) ++ t) ++ ["bins"]) ++ [b]) with
       | some (Node.file d) => some (Node.file d)
       | _ => lookupNode fs (instDir ++ [b]))) ∧
    (perform_rollback maxp fuel verify fs ((kh ++ ["snapshots"]) ++ t) kh instDir
        temp).1 =
      (if verify (perform_rollback maxp fuel verify fs ((kh ++ ["snapshots"]) ++ t) kh
          instDir temp).2 then Except.ok ()
       else Except.error RollbackErr.verifyFailed) ∧
    isDirAt (perform_rollback maxp fuel verify fs ((kh ++ ["snapshots"]) ++ t) kh
        instDir temp).2 instDir = true ∧
    (∀ q, Divergent q kh → Divergent q temp → Divergent q instDir →
      lookupNode (perform_rollback maxp fuel verify fs ((kh ++ ["snapshots"]) ++ t) kh
          instDir temp).2 q = lookupNode fs q) := by
  have hsnap_ex : existsAt fs ((kh ++ ["snapshots"]) ++ t) = true :=
    existsAt_of_append hbk
  have hrsd0 := restore_state_dir_under maxp fuel fs kh temp t s0 hs0 hbk hkh_ne
    htemp_fresh htemp_chain htemp_div hwf hb1 hb2 hdep
  obtain ⟨fsS, hfsS, hrsd⟩ : ∃ fsS,
      writeAt (eraseNode (writeAt (writeAt fs temp (Node.dir []))
          (temp ++ ["snapshots"]) (Node.dir s0)) kh) (kh ++ ["snapshots"])
        (Node.dir s0) = fsS ∧
      restore_state_dir maxp fuel fs ((kh ++ ["snapshots"]) ++ t) kh temp =
        (true, fsS) := ⟨_, rfl, hrsd0⟩
  have hA : ∀ r, lookupNode fsS ((kh ++ ["snapshots"]) ++ r) =
      lookupNode fs ((kh ++ ["snapshots"]) ++ r) := by
    intro r
    rw [← hfsS, lookupNode_writeAt_append, lookupNode_append, hs0]
    rfl
  have hfr : ∀ q, Divergent q kh → Divergent q temp →
      lookupNode fsS q = lookupNode fs q := by
    intro q hqk hqt
    rw [← hfsS,
      lookupNode_writeAt_divergent _ _ _ _ (hqk.symm.append_left ["snapshots"]),
      lookupNode_eraseNode_divergent hqk.symm,
      lookupNode_writeAt_divergent _ _ _ _ (hqt.symm.append_left ["snapshots"]),
      lookupNode_writeAt_divergent _ _ _ _ hqt.symm]
  have hkhS : lookupNode fsS kh = some (Node.dir [("snapshots", Node.dir s0)]) := by
    rw [← hfsS]
    have hbase : lookupNode (eraseNode (writeAt (writeAt fs temp (Node.dir []))
        (temp ++ ["snapshots"]) (Node.dir s0)) kh) kh = none :=
      lookupNode_eraseNode_self hkh_ne _
    have h2 := lookupNode_writeAt_chain _ kh ["snapshots"] (Node.dir s0) hbase
    simpa [chainNode] using h2
  have hinstS : isDirAt fsS instDir = true := by
    rw [isDirAt_eq_of_lookup_eq (hfr instDir hdiv_ik hdiv_it)]
    exact hinst
  have hdiv_ib : Divergent instDir (((kh ++ ["snapshots"]) ++ t) ++ ["bins"]) := by
    have h2 := hdiv_ik.append_right (["snapshots"] ++ t ++ ["bins"])
    simpa [List.append_assoc] using h2
  have hslotsB : ∀ b ∈ binaries,
      isDirAt fsS ((((kh ++ ["snapshots"]) ++ t) ++ ["bins"]) ++ [b]) = false := by
    intro b hb
    have heq : (((kh ++ ["snapshots"]) ++ t) ++ ["bins"]) ++ [b] =
        (kh ++ ["snapshots"]) ++ (t ++ ["bins"] ++ [b]) := by
      simp [List.append_assoc]
    rw [heq, isDirAt_eq_of_lookup_eq (hA (t ++ ["bins"] ++ [b])), ← heq]
    exact (hslots b hb).1
  have hslotsI : ∀ b ∈ binaries, isDirAt fsS (instDir ++ [b]) = false := by
    intro b hb
    rw [isDirAt_eq_of_lookup_eq (hfr (instDir ++ [b]) (hdiv_ik.append_left [b])
      (hdiv_it.append_left [b]))]
    exact (hslots b hb).2
  obtain ⟨hrb1, hrb2, hrb3, hrb4⟩ := restoreBinList_spec maxp binaries fsS
    (((kh ++ ["snapshots"]) ++ t) ++ ["bins"]) instDir (by decide) hinstS hdiv_ib
    hbytes (fun b hb => ⟨hslotsB b hb, hslotsI b hb⟩)
  have hbinsS : existsAt fsS (((kh ++ ["snapshots"]) ++ t) ++ ["bins"]) = true := by
    have heq : ((kh ++ ["snapshots"]) ++ t) ++ ["bins"] =
        (kh ++ ["snapshots"]) ++ (t ++ ["bins"]) := by
      simp [List.append_assoc]
    rw [heq, existsAt_eq_of_lookup_eq (hA (t ++ ["bins"])), ← heq]
    exact hbins
  have hpr : perform_rollback maxp fuel verify fs ((kh ++ ["snapshots"]) ++ t) kh
      instDir temp =
      ((if verify (restoreBinList maxp fsS (((kh ++ ["snapshots"]) ++ t) ++ ["bins"])
            instDir binaries).2 then Except.ok ()
        else Except.error RollbackErr.verifyFailed),
       (restoreBinList maxp fsS (((kh ++ ["snapshots"]) ++ t) ++ ["bins"]) instDir
          binaries).2) := by
    unfold perform_rollback
    rw [if_pos hsnap_ex]
    simp only [hrsd]
    simp only [restore_binaries]
    rw [if_pos hbinsS]
    rcases hrl : restoreBinList maxp fsS (((kh ++ ["snapshots"]) ++ t) ++ ["bins"])
        instDir binaries with ⟨okb, fsb⟩
    have hok : okb = true := by rw [hrl] at hrb1; exact hrb1
    subst hok
    simp only [hrl]
    cases hv : verify fsb
    · rw [if_neg (by simp), if_neg (by simp)]
    · rw [if_pos rfl, if_pos rfl]
  refine ⟨?_, ?_, ?_, ?_, ?_, ?_⟩
  · rw [hpr]
    have h2 := hrb2 kh (fun b hb => hdiv_ik.symm.append_right [b])
    rw [hkhS] at h2
    exact h2
  · intro r
    rw [hpr]
    have h2 := hrb2 ((kh ++ ["snapshots"]) ++ r)
      (fun b hb => divergent_assoc_left ["snapshots"] r (hdiv_ik.symm.append_right [b]))
    rw [hA r] at h2
    exact h2
  · intro b hb
    rw [hpr]
    have h2 := hrb3 b hb
    have h3 : lookupNode fsS ((((kh ++ ["snapshots"]) ++ t) ++ ["bins"]) ++ [b]) =
        lookupNode fs ((((kh ++ ["snapshots"]) ++ t) ++ ["bins"]) ++ [b]) := by
      have heq : (((kh ++ ["snapshots"]) ++ t) ++ ["bins"]) ++ [b] =
          (kh ++ ["snapshots"]) ++ (t ++ ["bins"] ++ [b]) := by
        simp [List.append_assoc]
      rw [heq]
      exact hA (t ++ ["bins"] ++ [b])
    have h4 : lookupNode fsS (instDir ++ [b]) = lookupNode fs (instDir ++ [b]) :=
      hfr (instDir ++ [b]) (hdiv_ik.append_left [b]) (hdiv_it.append_left [b])
    rw [h3, h4] at h2
    exact h2
  · rw [hpr]
  · rw [hpr]
    exact hrb4
  · intro q hqk hqt hqi
    rw [hpr]
    have h2 := hrb2 q (fun b hb => hqi.append_right [b])
    rw [hfr q hqk hqt] at h2
    exact h2

theorem isDirAt_false_of_match {fs2 fs : Node} {p bsrc : Path}
    (h : lookupNode fs2 p = (match lookupNode fs bsrc with
      | some (Node.file d) => some (Node.file d)
      | _ => lookupNode fs p))
    (hp : isDirAt fs p = false) : isDirAt fs2 p = false := by
  unfold isDirAt at hp ⊢
  rw [h]
  cases hlk : lookupNode fs bsrc with
  | none => simp only [hlk]; exact hp
  | some n =>
      cases n with
      | file d => simp [hlk]
      | dir ds => simp only [hlk]; exact hp

/-! ### The claims -/

/-- C5: the claimed invariant — every snapshot, once created, is a byte-faithful
copy of production — is vacuous in the worst way: `create_snapshot` never
succeeds on any input.  The recursive copy's destination
`<state_dir>/snapshots/pre_update_<ts>/kernelle_home` lies inside its source
`<state_dir>` and is created before the source is read, so the copy descends
into the snapshot being written and always fails, whatever the filesystem, the
path-length limit or the timestamp. -/
theorem C5_snapshot_never_created (maxp fuel : Nat) (ts : String) (fs : Node)
    (kernelle_home install_dir : Path) :
    (create_snapshot maxp fuel ts fs kernelle_home install_dir).1 = none :=
  create_snapshot_fails maxp fuel ts fs kernelle_home install_dir

/-- C7: absence is not benign.  Even when the production state directory does
not exist at all and no named binary exists, snapshot creation still fails —
`create_dir_all` materialises the state directory on its way to the snapshot
area, after which the recursive self-copy aborts as always — contradicting the
claim that an absent state directory yields an empty backup without error. -/
theorem C7_absence_still_fails (maxp fuel : Nat) (ts : String) (fs : Node)
    (kernelle_home install_dir : Path)
    (hkh : lookupNode fs kernelle_home = none)
    (hb : ∀ b ∈ binaries, lookupNode fs (install_dir ++ [b]) = none) :
    (create_snapshot maxp fuel ts fs kernelle_home install_dir).1 = none :=
  create_snapshot_fails maxp fuel ts fs kernelle_home install_dir

/-- Witness for C7 at a concrete input: an empty filesystem, where the state
directory and every named binary are absent. -/
theorem C7_witness :
    lookupNode (Node.dir []) ["home"] = none ∧
    (create_snapshot 100 3 "t" (Node.dir []) ["home"] ["bin"]).1 = none :=
  ⟨rfl, C7_absence_still_fails 100 3 "t" (Node.dir []) ["home"] ["bin"] rfl
    (by decide)⟩

/-- C9: when the snapshot directory handed to the rollback does not exist, the
rollback fails with its missing-snapshot error before mutating anything: the
returned filesystem is exactly the input filesystem. -/
theorem C9_missing_snapshot_pure_error (maxp fuel : Nat) (verify : Node → Bool)
    (fs : Node) (snapshot_path kernelle_home install_dir temp : Path)
    (h : existsAt fs snapshot_path = false) :
    perform_rollback maxp fuel verify fs snapshot_path kernelle_home install_dir
        temp = (Except.error RollbackErr.snapshotMissing, fs) := by
  unfold perform_rollback
  rw [if_neg (by simp [h])]

/-- Witness for C9 at a concrete input: a rollback pointed at a snapshot path
that does not exist. -/
theorem C9_witness :
    existsAt (Node.dir [("home", Node.dir [])]) ["gone"] = false ∧
    perform_rollback 100 3 (fun _ => true) (Node.dir [("home", Node.dir [])])
        ["gone"] ["home"] ["bin"] ["tmp"] =
      (Except.error RollbackErr.snapshotMissing,
       Node.dir [("home", Node.dir [])]) :=
  ⟨rfl, C9_missing_snapshot_pure_error 100 3 (fun _ => true)
    (Node.dir [("home", Node.dir [])]) ["gone"] ["home"] ["bin"] ["tmp"] rfl⟩

/-- C10: when the snapshot directory exists but holds no state backup, rollback
skips state-directory restoration entirely — every path divergent from the
binary slots, in particular the whole state directory, keeps its pre-rollback
contents — while the binaries present in the snapshot's binary backup are still
restored and post-rollback verification still runs and decides the outcome. -/
theorem C10_no_state_backup_skips_state_restore (maxp fuel : Nat)
    (verify : Node → Bool) (fs : Node)
    (snap kernelle_home install_dir temp : Path)
    (hex : existsAt fs snap = true)
    (hnobk : existsAt fs (snap ++ ["kernelle_home"]) = false)
    (hbins : existsAt fs (snap ++ ["bins"]) = true)
    (hroot : isDirAt fs install_dir = true)
    (hdiv : Divergent install_dir (snap ++ ["bins"]))
    (hbytes : ∀ b ∈ binaries, pathBytes ((snap ++ ["bins"]) ++ [b]) ≤ maxp ∧
      pathBytes (install_dir ++ [b]) ≤ maxp)
    (hslots : ∀ b ∈ binaries, isDirAt fs ((snap ++ ["bins"]) ++ [b]) = false ∧
      isDirAt fs (install_dir ++ [b]) = false) :
    (∀ q, (∀ b ∈ binaries, Divergent q (install_dir ++ [b])) →
      lookupNode (perform_rollback maxp fuel verify fs snap kernelle_home
          install_dir temp).2 q = lookupNode fs q) ∧
    (∀ b ∈ binaries, lookupNode (perform_rollback maxp fuel verify fs snap
        kernelle_home install_dir temp).2 (install_dir ++ [b]) =
      (match lookupNode fs ((snap ++ ["bins"]) ++ [b]) with
       | some (Node.file d) => some (Node.file d)
       | _ => lookupNode fs (install_dir ++ [b]))) ∧
    (perform_rollback maxp fuel verify fs snap kernelle_home install_dir temp).1 =
      (if verify (perform_rollback maxp fuel verify fs snap kernelle_home
          install_dir temp).2 then Except.ok ()
       else Except.error RollbackErr.verifyFailed) := by
  obtain ⟨h1, h2, h3, h4⟩ := restoreBinList_spec maxp binaries fs (snap ++ ["bins"])
    install_dir (by decide) hroot hdiv hbytes hslots
  have hrsd : restore_state_dir maxp fuel fs snap kernelle_home temp = (true, fs) := by
    unfold restore_state_dir
    rw [if_neg (by simp [hnobk])]
  have hpr : perform_rollback maxp fuel verify fs snap kernelle_home install_dir
      temp =
      ((if verify (restoreBinList maxp fs (snap ++ ["bins"]) install_dir
            binaries).2 then Except.ok ()
        else Except.error RollbackErr.verifyFailed),
       (restoreBinList maxp fs (snap ++ ["bins"]) install_dir binaries).2) := by
    unfold perform_rollback
    rw [if_pos hex]
    simp only [hrsd]
    simp only [restore_binaries]
    rw [if_pos hbins]
    rcases hrl : restoreBinList maxp fs (snap ++ ["bins"]) install_dir binaries with
      ⟨okb, fsb⟩
    have hok : okb = true := by rw [hrl] at h1; exact h1
    subst hok
    simp only [hrl]
    cases hv : verify fsb
    · rw [if_neg (by simp), if_neg (by simp)]
    · rw [if_pos rfl, if_pos rfl]
  refine ⟨?_, ?_, ?_⟩
  · intro q hqd
    rw [hpr]
    exact h2 q hqd
  · intro b hb
    rw [hpr]
    exact h3 b hb
  · rw [hpr]

/-- Witness for C10 at a concrete input: a snapshot with a binary backup but no
state backup; the state directory keeps its contents, the backed-up binary is
restored, verification runs. -/
theorem C10_witness :
    existsAt fsNoStateBackup (["snap"] ++ ["kernelle_home"]) = false ∧
    ((∀ q, (∀ b ∈ binaries, Divergent q (["bin"] ++ [b])) →
      lookupNode (perform_rollback 100 3 (fun _ => true) fsNoStateBackup ["snap"]
          ["home"] ["bin"] ["tmp"]).2 q = lookupNode fsNoStateBackup q) ∧
    (∀ b ∈ binaries, lookupNode (perform_rollback 100 3 (fun _ => true)
        fsNoStateBackup ["snap"] ["home"] ["bin"] ["tmp"]).2 (["bin"] ++ [b]) =
      (match lookupNode fsNoStateBackup ((["snap"] ++ ["bins"]) ++ [b]) with
       | some (Node.file d) => some (Node.file d)
       | _ => lookupNode fsNoStateBackup (["bin"] ++ [b]))) ∧
    (perform_rollback 100 3 (fun _ => true) fsNoStateBackup ["snap"] ["home"]
        ["bin"] ["tmp"]).1 =
      (if (fun (_ : Node) => true) (perform_rollback 100 3 (fun _ => true)
          fsNoStateBackup ["snap"] ["home"] ["bin"] ["tmp"]).2 then Except.ok ()
       else Except.error RollbackErr.verifyFailed)) :=
  ⟨rfl, C10_no_state_backup_skips_state_restore 100 3 (fun _ => true)
    fsNoStateBackup ["snap"] ["home"] ["bin"] ["tmp"] (by decide) (by decide)
    (by decide) (by decide) (by decide) (by decide) (by decide)⟩

/-- C6: the binary half of rollback restores exactly the names present in the
snapshot's binary backup — each such binary replaces whatever sits in the
production slot — while a name absent from the backup leaves its production
slot exactly as it was: in particular rollback never creates such a binary,
whatever an installer may have put there. -/
theorem C6_binary_restoration_exact (maxp : Nat) (fs : Node)
    (snap install_dir : Path)
    (hbins : existsAt fs (snap ++ ["bins"]) = true)
    (hroot : isDirAt fs install_dir = true)
    (hdiv : Divergent install_dir (snap ++ ["bins"]))
    (hbytes : ∀ b ∈ binaries, pathBytes ((snap ++ ["bins"]) ++ [b]) ≤ maxp ∧
      pathBytes (install_dir ++ [b]) ≤ maxp)
    (hslots : ∀ b ∈ binaries, isDirAt fs ((snap ++ ["bins"]) ++ [b]) = false ∧
      isDirAt fs (install_dir ++ [b]) = false) :
    (restore_binaries maxp fs snap install_dir).1 = true ∧
    (∀ b ∈ binaries, lookupNode fs ((snap ++ ["bins"]) ++ [b]) = none →
      lookupNode (restore_binaries maxp fs snap install_dir).2
          (install_dir ++ [b]) =
        lookupNode fs (install_dir ++ [b])) ∧
    (∀ b ∈ binaries, ∀ d, lookupNode fs ((snap ++ ["bins"]) ++ [b]) =
        some (Node.file d) →
      lookupNode (restore_binaries maxp fs snap install_dir).2
          (install_dir ++ [b]) = some (Node.file d)) := by
  obtain ⟨h1, h2, h3, h4⟩ := restoreBinList_spec maxp binaries fs (snap ++ ["bins"])
    install_dir (by decide) hroot hdiv hbytes hslots
  have hrb : restore_binaries maxp fs snap install_dir =
      restoreBinList maxp fs (snap ++ ["bins"]) install_dir binaries := by
    simp only [restore_binaries]
    rw [if_pos hbins]
  rw [hrb]
  refine ⟨h1, ?_, ?_⟩
  · intro b hb hnone
    rw [h3 b hb, hnone]
  · intro b hb d hd
    rw [h3 b hb, hd]

/-- Witness for C6 at a concrete input: "kernelle" has a backup and is copied in;
"jerrod" was created with no backup and is left exactly as it was. -/
theorem C6_witness :
    existsAt fsBinsExample (["snap"] ++ ["bins"]) = true ∧
    ((restore_binaries 100 fsBinsExample ["snap"] ["bin"]).1 = true ∧
    (∀ b ∈ binaries, lookupNode fsBinsExample ((["snap"] ++ ["bins"]) ++ [b]) =
        none →
      lookupNode (restore_binaries 100 fsBinsExample ["snap"] ["bin"]).2
          (["bin"] ++ [b]) =
        lookupNode fsBinsExample (["bin"] ++ [b])) ∧
    (∀ b ∈ binaries, ∀ d, lookupNode fsBinsExample
        ((["snap"] ++ ["bins"]) ++ [b]) = some (Node.file d) →
      lookupNode (restore_binaries 100 fsBinsExample ["snap"] ["bin"]).2
          (["bin"] ++ [b]) = some (Node.file d))) :=
  ⟨rfl, C6_binary_restoration_exact 100 fsBinsExample ["snap"] ["bin"] (by decide)
    (by decide) (by decide) (by decide) (by decide)⟩

/-- C2: whenever the installer or the post-install verifier fails, the tail of
`execute` automatically attempts a rollback and composes the rollback's outcome
with the original error rather than replacing it: a successful rollback yields
the rolled-back outcome carrying the original install or verification error,
and a failed rollback yields the distinct rollback-failed outcome carrying both
the original error and the rollback error; the returned filesystem is the one
the rollback attempt left. -/
theorem C2_rollback_outcome_composes (maxp fuel : Nat) (o : Oracle) (fs : Node)
    (snapshot_dir kernelle_home install_dir temp staging : Path) (ok : Bool)
    (fs1 : Node) (hrun : o.installRun fs = (ok, fs1))
    (hfail : ok = false ∨ o.verifyOk fs1 = false) :
    install_and_verify maxp fuel o fs snapshot_dir kernelle_home install_dir temp
        staging =
      ((match (perform_rollback maxp fuel o.verifyOk fs1 snapshot_dir kernelle_home
            install_dir temp).1 with
        | Except.ok _ => Except.error (UpdateErr.rolledBack
            (if ok then UpdateErr.verificationFailure else UpdateErr.installFailure))
        | Except.error rbe => Except.error (UpdateErr.rollbackFailed
            (if ok then UpdateErr.verificationFailure else UpdateErr.installFailure)
            rbe)),
       (perform_rollback maxp fuel o.verifyOk fs1 snapshot_dir kernelle_home
          install_dir temp).2) :=
  iav_fail_eq maxp fuel o fs snapshot_dir kernelle_home install_dir temp staging ok
    fs1 hrun hfail

/-- Witness for C2 at a concrete input: the installer fails and the rollback
also fails (its snapshot is missing), so the caller receives the
rollback-failed outcome carrying both errors. -/
theorem C2_witness :
    Oracle.installRun oracleInstallFails (Node.dir []) = (false, Node.dir []) ∧
    install_and_verify 100 3 oracleInstallFails (Node.dir []) ["s"] ["home"]
        ["bin"] ["tmp"] ["stg"] =
      (Except.error (UpdateErr.rollbackFailed UpdateErr.installFailure
        RollbackErr.snapshotMissing), Node.dir []) :=
  ⟨rfl, by
    rw [C2_rollback_outcome_composes 100 3 oracleInstallFails (Node.dir []) ["s"]
      ["home"] ["bin"] ["tmp"] ["stg"] false (Node.dir []) rfl (Or.inl rfl)]
    rfl⟩

/-- C4 (amended): after a successful download, save and extraction, the scan of
the staging directory fails with a fatal extraction error when no top-level
directory name contains "kernelle"; otherwise it returns the first directory in
iteration order whose name contains the substring — when several directories
match, the first one is returned and no error is raised. -/
theorem C4_extraction_scan_takes_first_match (maxp : Nat) (o : Oracle)
    (version : String) (fs fs1 : Node) (staging : Path) (url : String)
    (bytes : List Nat) (entries : List (String × Node))
    (h1 : o.tarballURL version = some url)
    (h2 : o.tarballBytes url = some bytes)
    (h3 : fsWrite maxp fs (staging ++ ["kernelle.tar.gz"]) bytes = some fs1)
    (h4 : o.tarResult bytes = some entries) :
    (matchesOf (dirEntries (applyTar fs1 staging entries) staging) = [] →
      (download_and_extract maxp o version fs staging).1 =
        Except.error UpdateErr.extraction) ∧
    (∀ m ms, matchesOf (dirEntries (applyTar fs1 staging entries) staging) =
        m :: ms →
      (download_and_extract maxp o version fs staging).1 =
        Except.ok (staging ++ [m])) := by
  constructor
  · intro hz
    simp [download_and_extract, h1, h2, h3, h4, findExtracted_eq_head, hz]
  · intro m ms hm
    simp [download_and_extract, h1, h2, h3, h4, findExtracted_eq_head, hm]

/-- Counterexample to C4 as stated: the extraction produces two top-level
directories whose names both contain "kernelle", yet the step does not fail —
it succeeds with the first of the two. -/
theorem C4_counterexample :
    matchesOf (dirEntries (download_and_extract 100 oracleTwoMatches "v"
        fsStagingOnly ["stg"]).2 ["stg"]) = ["kernelle-a", "kernelle-b"] ∧
    (download_and_extract 100 oracleTwoMatches "v" fsStagingOnly ["stg"]).1 =
      Except.ok (["stg"] ++ ["kernelle-a"]) :=
  ⟨rfl, rfl⟩

/-- Witness for the amended C4 at a concrete input with two matching extracted
directories: the scan returns the first. -/
theorem C4_witness :
    Oracle.tarballURL oracleTwoMatches "v" = some "u" ∧
    ((matchesOf (dirEntries (applyTar (Node.dir [("stg", Node.dir [("kernelle.tar.gz",
        Node.file [7])])]) ["stg"] [("kernelle-a", Node.dir []),
        ("kernelle-b", Node.dir [])]) ["stg"]) = [] →
      (download_and_extract 100 oracleTwoMatches "v" fsStagingOnly ["stg"]).1 =
        Except.error UpdateErr.extraction) ∧
    (∀ m ms, matchesOf (dirEntries (applyTar (Node.dir [("stg", Node.dir
        [("kernelle.tar.gz", Node.file [7])])]) ["stg"] [("kernelle-a", Node.dir []),
        ("kernelle-b", Node.dir [])]) ["stg"]) = m :: ms →
      (download_and_extract 100 oracleTwoMatches "v" fsStagingOnly ["stg"]).1 =
        Except.ok (["stg"] ++ [m]))) :=
  ⟨rfl, C4_extraction_scan_takes_first_match 100 oracleTwoMatches "v" fsStagingOnly
    (Node.dir [("stg", Node.dir [("kernelle.tar.gz", Node.file [7])])]) ["stg"]
    "u" [7] [("kernelle-a", Node.dir []), ("kernelle-b", Node.dir [])] rfl rfl rfl
    rfl⟩

/-- C1: any failure in version resolution, staging-workspace setup, download,
extraction or staging validation — all strictly before snapshot creation —
aborts the run with one of the pre-snapshot errors and with every path
divergent from the staging workspace untouched: in particular the production
state directory and binaries hold exactly their pre-run contents, and no
rollback is attempted (the error is the original one, not a rollback
composition). -/
theorem C1_pre_snapshot_failure_leaves_production_untouched (maxp fuel : Nat)
    (o : Oracle) (version : Option String) (ts : String) (fs0 : Node)
    (staging kernelle_home install_dir temp : Path) (e : UpdateErr)
    (hres : (execute maxp fuel o version ts fs0 staging kernelle_home install_dir
        temp).1 = Except.error e)
    (he : e = UpdateErr.resolution ∨ e = UpdateErr.stagingSetup ∨
      e = UpdateErr.download ∨ e = UpdateErr.extraction ∨
      e = UpdateErr.stagingBuild ∨ e = UpdateErr.stagingSmoke) :
    ∀ q, Divergent q staging →
      lookupNode (execute maxp fuel o version ts fs0 staging kernelle_home
          install_dir temp).2 q = lookupNode fs0 q := by
  intro q hq
  unfold execute at hres ⊢
  cases hv : (match version with | some v => some v | none => o.latestTag) with
  | none => simp only [hv]
  | some target =>
      simp only [hv] at hres ⊢
      cases hca1 : createDirAll maxp fs0 staging with
      | none => simp only [hca1]
      | some fsA =>
          simp only [hca1] at hres ⊢
          have hfA : lookupNode fsA q = lookupNode fs0 q := createDirAll_frame hca1 hq
          cases hca2 : createDirAll maxp fsA (staging ++ ["kernelle_home"]) with
          | none => simp only [hca2]; exact hfA
          | some fsB =>
              simp only [hca2] at hres ⊢
              have hfB : lookupNode fsB q = lookupNode fsA q :=
                createDirAll_frame hca2 (hq.append_right ["kernelle_home"])
              cases hca3 : createDirAll maxp fsB (staging ++ ["bins"]) with
              | none => simp only [hca3]; rw [hfB]; exact hfA
              | some fs1 =>
                  simp only [hca3] at hres ⊢
                  have hf1 : lookupNode fs1 q = lookupNode fs0 q := by
                    rw [createDirAll_frame hca3 (hq.append_right ["bins"]), hfB, hfA]
                  rcases hdae : download_and_extract maxp o target fs1 staging with
                    ⟨r2, fs2⟩
                  have hf2 : lookupNode fs2 q = lookupNode fs1 q := by
                    have h := dae_frame maxp o target fs1 staging q hq
                    rw [hdae] at h
                    exact h
                  cases r2 with
                  | error e2 =>
                      simp only [hdae]
                      rw [hf2]
                      exact hf1
                  | ok extracted =>
                      simp only [hdae] at hres ⊢
                      rcases htbs : test_build_in_staging o fs2 extracted
                          (staging ++ ["kernelle_home"]) (staging ++ ["bins"]) with
                        ⟨r3, fs3⟩
                      have hf3 : lookupNode fs3 q = lookupNode fs2 q := by
                        have h := tbs_frame o fs2 extracted
                          (staging ++ ["kernelle_home"]) (staging ++ ["bins"]) q
                          (hq.append_right ["kernelle_home"])
                        rw [htbs] at h
                        exact h
                      cases r3 with
                      | error e3 =>
                          simp only [htbs]
                          rw [hf3, hf2]
                          exact hf1
                      | ok u =>
                          simp only [htbs] at hres ⊢
                          rcases hcs : create_snapshot maxp fuel ts fs3 kernelle_home
                              install_dir with ⟨os, fs4⟩
                          cases os with
                          | none =>
                              simp only [hcs] at hres
                              have hres2 : Except.error UpdateErr.snapshot =
                                  (Except.error e : Except UpdateErr Unit) := hres
                              have he2 : e = UpdateErr.snapshot := by
                                injection hres2 with h2
                                exact h2.symm
                              subst he2
                              simp at he
                          | some sd =>
                              simp only [hcs] at hres
                              rcases iav_shape maxp fuel o fs4 sd kernelle_home
                                  install_dir temp staging with hsh | ⟨e0, hsh⟩ |
                                  ⟨e0, rbe, hsh⟩
                              · rw [hsh] at hres
                                simp at hres
                              · rw [hsh] at hres
                                have he2 : e = UpdateErr.rolledBack e0 := by
                                  injection hres with h2
                                  exact h2.symm
                                subst he2
                                simp at he
                              · rw [hsh] at hres
                                have he2 : e = UpdateErr.rollbackFailed e0 rbe := by
                                  injection hres with h2
                                  exact h2.symm
                                subst he2
                                simp at he

/-- Witness for C1 at a concrete input: version resolution fails (no version
given, no latest tag), the run aborts and every path divergent from the staging
workspace — the whole production tree — is untouched. -/
theorem C1_witness :
    (execute 100 3 oracleNoRelease none "t" (Node.dir [("home", Node.dir [])])
        ["stg"] ["home"] ["bin"] ["tmp"]).1 = Except.error UpdateErr.resolution ∧
    ∀ q, Divergent q ["stg"] →
      lookupNode (execute 100 3 oracleNoRelease none "t"
          (Node.dir [("home", Node.dir [])]) ["stg"] ["home"] ["bin"] ["tmp"]).2 q =
        lookupNode (Node.dir [("home", Node.dir [])]) q :=
  ⟨rfl, C1_pre_snapshot_failure_leaves_production_untouched 100 3 oracleNoRelease
    none "t" (Node.dir [("home", Node.dir [])]) ["stg"] ["home"] ["bin"] ["tmp"]
    UpdateErr.resolution rfl (Or.inl rfl)⟩

/-- C3: for a rollback from a snapshot under the state directory's snapshots
subtree (the layout the code itself produces) whose state backup exists, the
pre-existing snapshots subtree — including the snapshot used for the
restoration — is still present after the rollback with exactly its pre-rollback
contents: it is copied aside to a tempdir before the state directory is
replaced and restored afterwards, so it is never deleted. -/
theorem C3_rollback_preserves_snapshots_subtree (maxp fuel : Nat)
    (verify : Node → Bool) (fs : Node) (kh temp instDir t : Path)
    (s0 : List (String × Node))
    (hs0 : lookupNode fs (kh ++ ["snapshots"]) = some (Node.dir s0))
    (hbk : existsAt fs (((kh ++ ["snapshots"]) ++ t) ++ ["kernelle_home"]) = true)
    (hkh_ne : kh ≠ [])
    (htemp_fresh : lookupNode fs temp = none)
    (htemp_chain : chainDirsB fs temp = true)
    (htemp_div : Divergent temp kh)
    (hwf : wfL s0 = true)
    (hb1 : pathBytes (temp ++ ["snapshots"]) + weightL s0 ≤ maxp)
    (hb2 : pathBytes (kh ++ ["snapshots"]) + weightL s0 ≤ maxp)
    (hdep : depthL s0 + 1 ≤ fuel)
    (hinst : isDirAt fs instDir = true)
    (hdiv_ik : Divergent instDir kh)
    (hdiv_it : Divergent instDir temp)
    (hbins : existsAt fs (((kh ++ ["snapshots"]) ++ t) ++ ["bins"]) = true)
    (hbytes : ∀ b ∈ binaries,
      pathBytes ((((kh ++ ["snapshots"]) ++ t) ++ ["bins"]) ++ [b]) ≤ maxp ∧
      pathBytes (instDir ++ [b]) ≤ maxp)
    (hslots : ∀ b ∈ binaries,
      isDirAt fs ((((kh ++ ["snapshots"]) ++ t) ++ ["bins"]) ++ [b]) = false ∧
      isDirAt fs (instDir ++ [b]) = false) :
    lookupNode (perform_rollback maxp fuel verify fs ((kh ++ ["snapshots"]) ++ t)
        kh instDir temp).2 (kh ++ ["snapshots"]) = some (Node.dir s0) := by
  obtain ⟨-, hA1, -, -, -, -⟩ := rollback_real_spec maxp fuel verify fs kh temp
    instDir t s0 hs0 hbk hkh_ne htemp_fresh htemp_chain htemp_div hwf hb1 hb2 hdep
    hinst hdiv_ik hdiv_it hbins hbytes hslots
  have h2 := hA1 []
  simp only [List.append_nil] at h2
  rw [h2]
  exact hs0

/-- Witness for C3 at a concrete input: after rolling back from the snapshot
"pre" stored under home/snapshots, the snapshots subtree — the snapshot "pre"
included — is intact. -/
theorem C3_witness :
    lookupNode fsExample (["home"] ++ ["snapshots"]) = some (Node.dir s0Example) ∧
    lookupNode (perform_rollback 1000 10 (fun _ => true) fsExample
        ((["home"] ++ ["snapshots"]) ++ ["pre"]) ["home"] ["bin"] ["tmp"]).2
      (["home"] ++ ["snapshots"]) = some (Node.dir s0Example) :=
  ⟨by decide, C3_rollback_preserves_snapshots_subtree 1000 10 (fun _ => true)
    fsExample ["home"] ["tmp"] ["bin"] ["pre"] s0Example (by decide) (by decide)
    (by decide) (by decide) (by decide) (by decide) (by decide) (by decide)
    (by decide) (by decide) (by decide) (by decide) (by decide) (by decide)
    (by decide) (by decide)⟩

/-- C8: rollback is idempotent — with the snapshot under the state directory's
snapshots subtree (the code's own layout) and a fresh tempdir for each run,
invoking the rollback twice with the same snapshot leaves the production state
directory and every named binary slot exactly as a single invocation does. -/
theorem C8_rollback_idempotent (maxp fuel : Nat) (verify : Node → Bool)
    (fs : Node) (kh temp temp2 instDir t : Path) (s0 : List (String × Node))
    (hs0 : lookupNode fs (kh ++ ["snapshots"]) = some (Node.dir s0))
    (hbk : existsAt fs (((kh ++ ["snapshots"]) ++ t) ++ ["kernelle_home"]) = true)
    (hkh_ne : kh ≠ [])
    (htemp_fresh : lookupNode fs temp = none)
    (htemp_chain : chainDirsB fs temp = true)
    (htemp_div : Divergent temp kh)
    (hwf : wfL s0 = true)
    (hb1 : pathBytes (temp ++ ["snapshots"]) + weightL s0 ≤ maxp)
    (hb2 : pathBytes (kh ++ ["snapshots"]) + weightL s0 ≤ maxp)
    (hdep : depthL s0 + 1 ≤ fuel)
    (hinst : isDirAt fs instDir = true)
    (hdiv_ik : Divergent instDir kh)
    (hdiv_it : Divergent instDir temp)
    (hbins : existsAt fs (((kh ++ ["snapshots"]) ++ t) ++ ["bins"]) = true)
    (hbytes : ∀ b ∈ binaries,
      pathBytes ((((kh ++ ["snapshots"]) ++ t) ++ ["bins"]) ++ [b]) ≤ maxp ∧
      pathBytes (instDir ++ [b]) ≤ maxp)
    (hslots : ∀ b ∈ binaries,
      isDirAt fs ((((kh ++ ["snapshots"]) ++ t) ++ ["bins"]) ++ [b]) = false ∧
      isDirAt fs (instDir ++ [b]) = false)
    (htemp2_fresh : lookupNode fs temp2 = none)
    (htemp2_single : ∃ x, temp2 = [x])
    (htemp2_div : Divergent temp2 kh)
    (htemp2_div_temp : Divergent temp2 temp)
    (hdiv_it2 : Divergent instDir temp2)
    (hb1' : pathBytes (temp2 ++ ["snapshots"]) + weightL s0 ≤ maxp) :
    lookupNode (perform_rollback maxp fuel verify (perform_rollback maxp fuel
        verify fs ((kh ++ ["snapshots"]) ++ t) kh instDir temp).2
        ((kh ++ ["snapshots"]) ++ t) kh instDir temp2).2 kh =
      lookupNode (perform_rollback maxp fuel verify fs ((kh ++ ["snapshots"]) ++ t)
        kh instDir temp).2 kh ∧
    ∀ b ∈ binaries,
      lookupNode (perform_rollback maxp fuel verify (perform_rollback maxp fuel
          verify fs ((kh ++ ["snapshots"]) ++ t) kh instDir temp).2
          ((kh ++ ["snapshots"]) ++ t) kh instDir temp2).2 (instDir ++ [b]) =
      lookupNode (perform_rollback maxp fuel verify fs ((kh ++ ["snapshots"]) ++ t)
          kh instDir temp).2 (instDir ++ [b]) := by
  obtain ⟨x2, rfl⟩ := htemp2_single
  obtain ⟨hkh1, hA1, hbin1, -, hinst1, hfr1⟩ := rollback_real_spec maxp fuel verify
    fs kh temp instDir t s0 hs0 hbk hkh_ne htemp_fresh htemp_chain htemp_div hwf
    hb1 hb2 hdep hinst hdiv_ik hdiv_it hbins hbytes hslots
  obtain ⟨fs2, hfs2⟩ : ∃ x, (perform_rollback maxp fuel verify fs
      ((kh ++ ["snapshots"]) ++ t) kh instDir temp).2 = x := ⟨_, rfl⟩
  rw [hfs2] at hkh1 hA1 hbin1 hinst1 hfr1 ⊢
  have htemp2_fresh2 : lookupNode fs2 [x2] = none := by
    rw [hfr1 [x2] htemp2_div htemp2_div_temp hdiv_it2.symm]
    exact htemp2_fresh
  have htemp2_chain2 : chainDirsB fs2 [x2] = true := by
    cases hf : fs2 with
    | file d =>
        rw [hf] at hkh1
        cases kh with
        | nil => exact absurd rfl hkh_ne
        | cons a p => simp [lookupNode] at hkh1
    | dir es2 => rfl
  have hs0' : lookupNode fs2 (kh ++ ["snapshots"]) = some (Node.dir s0) := by
    have h2 := hA1 []
    simp only [List.append_nil] at h2
    rw [h2]
    exact hs0
  have hbk' : existsAt fs2 (((kh ++ ["snapshots"]) ++ t) ++ ["kernelle_home"]) =
      true := by
    have heq : ((kh ++ ["snapshots"]) ++ t) ++ ["kernelle_home"] =
        (kh ++ ["snapshots"]) ++ (t ++ ["kernelle_home"]) := by
      simp [List.append_assoc]
    rw [heq, existsAt_eq_of_lookup_eq (hA1 (t ++ ["kernelle_home"])), ← heq]
    exact hbk
  have hbins' : existsAt fs2 (((kh ++ ["snapshots"]) ++ t) ++ ["bins"]) = true := by
    have heq : ((kh ++ ["snapshots"]) ++ t) ++ ["bins"] =
        (kh ++ ["snapshots"]) ++ (t ++ ["bins"]) := by
      simp [List.append_assoc]
    rw [heq, existsAt_eq_of_lookup_eq (hA1 (t ++ ["bins"])), ← heq]
    exact hbins
  have hslots' : ∀ b ∈ binaries,
      isDirAt fs2 ((((kh ++ ["snapshots"]) ++ t) ++ ["bins"]) ++ [b]) = false ∧
      isDirAt fs2 (instDir ++ [b]) = false := by
    intro b hb
    constructor
    · have heq : (((kh ++ ["snapshots"]) ++ t) ++ ["bins"]) ++ [b] =
          (kh ++ ["snapshots"]) ++ (t ++ ["bins"] ++ [b]) := by
        simp [List.append_assoc]
      rw [heq, isDirAt_eq_of_lookup_eq (hA1 (t ++ ["bins"] ++ [b])), ← heq]
      exact (hslots b hb).1
    · exact isDirAt_false_of_match (hbin1 b hb) (hslots b hb).2
  obtain ⟨hkh2, hA2, hbin2, -, -, -⟩ := rollback_real_spec maxp fuel verify fs2 kh
    [x2] instDir t s0 hs0' hbk' hkh_ne htemp2_fresh2 htemp2_chain2 htemp2_div hwf
    hb1' hb2 hdep hinst1 hdiv_ik hdiv_it2 hbins' hbytes hslots'
  constructor
  · rw [hkh2, hkh1]
  · intro b hb
    rw [hbin2 b hb]
    have htrans : lookupNode fs2 ((((kh ++ ["snapshots"]) ++ t) ++ ["bins"]) ++ [b])
        = lookupNode fs ((((kh ++ ["snapshots"]) ++ t) ++ ["bins"]) ++ [b]) := by
      have heq : (((kh ++ ["snapshots"]) ++ t) ++ ["bins"]) ++ [b] =
          (kh ++ ["snapshots"]) ++ (t ++ ["bins"] ++ [b]) := by
        simp [List.append_assoc]
      rw [heq]
      exact hA1 (t ++ ["bins"] ++ [b])
    rw [htrans]
    cases hlk : lookupNode fs ((((kh ++ ["snapshots"]) ++ t) ++ ["bins"]) ++ [b]) with
    | none => rfl
    | some n =>
        cases n with
        | dir ds => rfl
        | file d => rw [hbin1 b hb, hlk]

/-- Witness for C8 at a concrete input: two successive rollbacks from the
snapshot "pre" (with fresh tempdirs tmp and tmp2) leave the state directory and
every binary slot as the first one did. -/
theorem C8_witness :
    lookupNode fsExample (["home"] ++ ["snapshots"]) = some (Node.dir s0Example) ∧
    (lookupNode (perform_rollback 1000 10 (fun _ => true) (perform_rollback 1000 10
        (fun _ => true) fsExample ((["home"] ++ ["snapshots"]) ++ ["pre"]) ["home"]
        ["bin"] ["tmp"]).2 ((["home"] ++ ["snapshots"]) ++ ["pre"]) ["home"]
        ["bin"] ["tmp2"]).2 ["home"] =
      lookupNode (perform_rollback 1000 10 (fun _ => true) fsExample
        ((["home"] ++ ["snapshots"]) ++ ["pre"]) ["home"] ["bin"] ["tmp"]).2
        ["home"] ∧
    ∀ b ∈ binaries,
      lookupNode (perform_rollback 1000 10 (fun _ => true) (perform_rollback 1000
          10 (fun _ => true) fsExample ((["home"] ++ ["snapshots"]) ++ ["pre"])
          ["home"] ["bin"] ["tmp"]).2 ((["home"] ++ ["snapshots"]) ++ ["pre"])
          ["home"] ["bin"] ["tmp2"]).2 (["bin"] ++ [b]) =
      lookupNode (perform_rollback 1000 10 (fun _ => true) fsExample
          ((["home"] ++ ["snapshots"]) ++ ["pre"]) ["home"] ["bin"] ["tmp"]).2
        (["bin"] ++ [b])) :=
  ⟨by decide, C8_rollback_idempotent 1000 10 (fun _ => true) fsExample ["home"]
    ["tmp"] ["tmp2"] ["bin"] ["pre"] s0Example (by decide) (by decide) (by decide)
    (by decide) (by decide) (by decide) (by decide) (by decide) (by decide)
    (by decide) (by decide) (by decide) (by decide) (by decide) (by decide)
    (by decide) (by decide) ⟨"tmp2", rfl⟩ (by decide) (by decide) (by decide)
    (by decide)⟩

end Kernelle
